import Mathlib

set_option maxHeartbeats 1000000
set_option maxRecDepth 2000

/-
  Verification of the Zarr-v3 store adapter (src/zarr.rs).

  Rust strings are modelled as `List Char`; byte-level indexing is modelled at
  character granularity, which is faithful for the ASCII keys manipulated by
  the adapter (all fixed literals are ASCII, and the byte positions sliced by
  the code follow ASCII characters).  Machine integers (u64) are modelled as
  `Nat` with explicit `< 2 ^ 64` bounds where overflow matters.
-/

abbrev Str := List Char

/-- The literal `Key::ROOT_KEY = "zarr.json"`. -/
def rootKeyS : Str := "zarr.json".data

/-- The literal `Key::METADATA_SUFFIX = "/zarr.json"`. -/
def metaSuffix : Str := "/zarr.json".data

/-- Rust `str::split('/')`: split a character list at every `'/'`.
    `splitOnSlash [] = [[]]`, matching Rust where `"".split('/')` yields one
    empty piece. -/
def splitOnSlash : Str → List Str
  | [] => [[]]
  | c :: rest =>
    if c = '/' then [] :: splitOnSlash rest
    else
      match splitOnSlash rest with
      | [] => [[c]]
      | s :: ss => (c :: s) :: ss

/-- Itertools `join("/")`: interleave `'/'` between the pieces. -/
def joinSegs : List Str → Str
  | [] => []
  | [t] => t
  | t :: u :: ts => t ++ '/' :: joinSegs (u :: ts)

/-- Whether the pattern `"/c"` occurs somewhere in the string. -/
def hasSlashC : Str → Bool
  | [] => false
  | a :: rest =>
    if a = '/' ∧ rest.head? = some 'c' then true else hasSlashC rest

/-- Rust `str::rsplit_once("/c")`: split at the rightmost occurrence of the
    two-character pattern `"/c"`, returning the text before and after it. -/
def rsplitSlashC : Str → Option (Str × Str)
  | [] => none
  | a :: rest =>
    match rsplitSlashC rest with
    | some (pre, post) => some (a :: pre, post)
    | none =>
      if a = '/' ∧ rest.head? = some 'c' then some ([], rest.drop 1) else none

/-- Rust `str::strip_prefix`: remove the pattern from the front if present. -/
def stripPre (pat s : Str) : Option Str :=
  match pat, s with
  | [], s => some s
  | _ :: _, [] => none
  | p :: ps, c :: cs => if c = p then stripPre ps cs else none

/-- Rust `str::strip_suffix`: remove the pattern from the end if present. -/
def stripSuffix (s suf : Str) : Option Str :=
  (stripPre suf.reverse s.reverse).map List.reverse

/-- The ten ASCII decimal digit characters, by value.  Rust formats `u64`
    values with these. -/
def digitChr (d : Nat) : Char :=
  if d = 0 then '0' else if d = 1 then '1' else if d = 2 then '2'
  else if d = 3 then '3' else if d = 4 then '4' else if d = 5 then '5'
  else if d = 6 then '6' else if d = 7 then '7' else if d = 8 then '8' else '9'

/-- Fuel-driven decimal formatter (most significant digit first). -/
def fmtNatAux : Nat → Nat → Str → Str
  | 0, _, acc => acc
  | fuel + 1, n, acc =>
    if n < 10 then digitChr (n % 10) :: acc
    else fmtNatAux fuel (n / 10) (digitChr (n % 10) :: acc)

/-- Rust `u64::to_string`: canonical decimal representation. -/
def fmtNat (n : Nat) : Str := fmtNatAux (n + 1) n []

/-- Rust `str::parse::<u64>()`: an optional leading `'+'`, then one or more
    ASCII digits, with overflow above `u64::MAX` rejected. -/
def parseU64 (s : Str) : Option Nat :=
  let body := if s.head? = some '+' then s.drop 1 else s
  if body = [] then none
  else if body.all Char.isDigit then
    let v := body.foldl (fun a c => a * 10 + (c.toNat - 48)) 0
    if v < 2 ^ 64 then some v else none
  else none

/-- `coords.map(|s| s.parse::<u64>()).collect::<Result<Vec<_>,_>>()`. -/
def parseCoords : List Str → Option (List Nat)
  | [] => some []
  | s :: rest =>
    match parseU64 s, parseCoords rest with
    | some n, some ns => some (n :: ns)
    | _, _ => none

/-- `enum Key` from src/zarr.rs: the structured address of a store object.
    `Path` (a `PathBuf`) is modelled as its character list. -/
inductive Key where
  | Metadata (node_path : Str)
  | Chunk (node_path : Str) (coords : List Nat)
  deriving DecidableEq

/-- `KeyNotFoundError` from src/zarr.rs. -/
inductive KeyNotFoundError where
  | ChunkNotFound (key : Str) (path : Str) (coords : List Nat)
  | NodeNotFound (path : Str)
  deriving DecidableEq

/-- The dataset-engine error (`DatasetError`, external to src/zarr.rs).
    Modelled from the spec: engine calls can fail because a node is absent or
    because of lower-level failures such as I/O ("Engine-level failure (type
    mismatch, I/O)", spec section 7). -/
inductive DSErr where
  | nodeNotFound (path : Str)
  | conflict (path : Str)
  | io
  deriving DecidableEq

/-- A `serde_json` error, carrying only its message. -/
abbrev JErr := Str

/-- `StoreError` from src/zarr.rs. -/
inductive StoreError where
  | InvalidKey (key : Str)
  | NotFound (e : KeyNotFoundError)
  | CannotUpdate (e : DSErr)
  | BadMetadata (e : JErr)
  | Unimplemented (s : Str)
  | BadKeyPre (p : Str)
  | Unknown
  deriving DecidableEq

instance {ε α : Type} [DecidableEq ε] [DecidableEq α] : DecidableEq (Except ε α) :=
  fun x y =>
    match x, y with
    | .ok a, .ok b =>
      if h : a = b then .isTrue (by rw [h]) else .isFalse (by simp [h])
    | .ok _, .error _ => .isFalse (by simp)
    | .error _, .ok _ => .isFalse (by simp)
    | .error e, .error f =>
      if h : e = f then .isTrue (by rw [h]) else .isFalse (by simp [h])

/-- The inner helper `parse_chunk` of `Key::parse`.  `["/", path].collect()`
    builds the absolute path `'/' :: path` (`path` never begins with `'/'`
    on the inputs reachable from `Key::parse`). -/
def parseChunk (key : Str) : Except StoreError Key :=
  if key = ['c'] then .ok (.Chunk ['/'] [])
  else
    match rsplitSlashC key with
    | some (path, coords) =>
      if coords = [] then .ok (.Chunk ('/' :: path) [])
      else
        match stripPre ['/'] coords with
        | some rest =>
          match parseCoords (splitOnSlash rest) with
          | some cs => .ok (.Chunk ('/' :: path) cs)
          | none => .error (.InvalidKey key)
        | none => .error (.InvalidKey key)
    | none => .error (.InvalidKey key)

/-- `Key::parse` from src/zarr.rs. -/
def Key.parse (key : Str) : Except StoreError Key :=
  if key = rootKeyS then .ok (.Metadata ['/'])
  else if key.head? = some '/' then .error (.InvalidKey key)
  else
    match stripSuffix key metaSuffix with
    | some path => .ok (.Metadata ('/' :: path))
    | none => parseChunk key

/-- `trim_start_matches('/')`: drop every leading slash. -/
def trimSlashes : Str → Str
  | [] => []
  | c :: rest => if c = '/' then trimSlashes rest else c :: rest

/-- `Key::to_string` from src/zarr.rs.  `node_path.as_path().to_str()` is
    always `Some` in this model (Lean strings are UTF-8 by construction), so
    the `Option` mirrors the Rust signature.  The byte slice `&s[1..]` is
    modelled as `List.drop 1`, faithful whenever the path starts with the
    one-byte character `'/'`. -/
def Key.toString : Key → Option Str
  | .Metadata node_path => some (trimSlashes (node_path.drop 1 ++ metaSuffix))
  | .Chunk node_path coords =>
    some (joinSegs (([node_path.drop 1, ['c'],
      joinSegs (coords.map fmtNat)]).filter (fun s => !s.isEmpty)))

/-! ### Elementary facts about the string helpers -/

theorem splitOnSlash_ne_nil (s : Str) : splitOnSlash s ≠ [] := by
  cases s with
  | nil => simp [splitOnSlash]
  | cons c rest =>
    unfold splitOnSlash
    split
    · simp
    · cases h : splitOnSlash rest <;> simp

theorem joinSegs_cons_cons (t u : Str) (ts : List Str) :
    joinSegs (t :: u :: ts) = t ++ '/' :: joinSegs (u :: ts) := rfl

theorem splitOnSlash_cons (c : Char) (rest : Str) :
    splitOnSlash (c :: rest) =
      if c = '/' then [] :: splitOnSlash rest
      else
        match splitOnSlash rest with
        | [] => [[c]]
        | s :: ss => (c :: s) :: ss := rfl

theorem joinSegs_splitOnSlash (s : Str) : joinSegs (splitOnSlash s) = s := by
  induction s with
  | nil => rfl
  | cons c rest ih =>
    cases hsp : splitOnSlash rest with
    | nil => exact absurd hsp (splitOnSlash_ne_nil rest)
    | cons t ts =>
      rw [hsp] at ih
      rw [splitOnSlash_cons, hsp]
      by_cases hc : c = '/'
      · subst hc
        rw [if_pos rfl, joinSegs_cons_cons]
        simp [ih]
      · rw [if_neg hc]
        cases ts with
        | nil =>
          simp only [joinSegs] at ih ⊢
          simp [ih]
        | cons u us =>
          rw [joinSegs_cons_cons] at ih ⊢
          simp [ih]

theorem splitOnSlash_of_no_slash (t : Str) (h : '/' ∉ t) : splitOnSlash t = [t] := by
  induction t with
  | nil => rfl
  | cons c rest ih =>
    have hc : c ≠ '/' := fun hc => h (hc ▸ List.mem_cons_self c rest)
    have hr : '/' ∉ rest := fun hr => h (List.mem_cons_of_mem c hr)
    rw [splitOnSlash_cons, if_neg hc, ih hr]

theorem splitOnSlash_append (t z : Str) (h : '/' ∉ t) :
    splitOnSlash (t ++ '/' :: z) = t :: splitOnSlash z := by
  induction t with
  | nil => simp [splitOnSlash_cons]
  | cons c rest ih =>
    have hc : c ≠ '/' := fun hc => h (hc ▸ List.mem_cons_self c rest)
    have hr : '/' ∉ rest := fun hr => h (List.mem_cons_of_mem c hr)
    rw [List.cons_append, splitOnSlash_cons, if_neg hc, ih hr]

theorem splitOnSlash_joinSegs (parts : List Str) (h0 : parts ≠ [])
    (h : ∀ t ∈ parts, '/' ∉ t) : splitOnSlash (joinSegs parts) = parts := by
  induction parts with
  | nil => exact absurd rfl h0
  | cons t ts ih =>
    cases ts with
    | nil =>
      simp only [joinSegs]
      exact splitOnSlash_of_no_slash t (h t (List.mem_cons_self t []))
    | cons u us =>
      rw [joinSegs_cons_cons,
        splitOnSlash_append _ _ (h t (List.mem_cons_self t (u :: us))),
        ih (by simp) (fun x hx => h x (List.mem_cons_of_mem t hx))]

theorem mem_splitOnSlash_no_slash (s t : Str) (h : t ∈ splitOnSlash s) :
    '/' ∉ t := by
  induction s generalizing t with
  | nil =>
    simp [splitOnSlash] at h
    simp [h]
  | cons c rest ih =>
    rw [splitOnSlash_cons] at h
    by_cases hc : c = '/'
    · rw [if_pos hc] at h
      rcases List.mem_cons.mp h with h1 | h1
      · simp [h1]
      · exact ih t h1
    · rw [if_neg hc] at h
      cases hsp : splitOnSlash rest with
      | nil => exact absurd hsp (splitOnSlash_ne_nil rest)
      | cons a as =>
        rw [hsp] at h
        rcases List.mem_cons.mp h with h1 | h1
        · subst h1
          intro hmem
          rcases List.mem_cons.mp hmem with h2 | h2
          · exact hc h2.symm
          · exact ih a (hsp ▸ List.mem_cons_self a as) h2
        · exact ih t (hsp ▸ List.mem_cons_of_mem a h1)

theorem joinSegs_length (t : Str) (ts : List Str) :
    t.length ≤ (joinSegs (t :: ts)).length := by
  cases ts with
  | nil => simp [joinSegs]
  | cons u us => rw [joinSegs_cons_cons] ; simp

theorem joinSegs_ne_nil (t : Str) (ts : List Str) (h : t ≠ []) :
    joinSegs (t :: ts) ≠ [] := by
  intro hj
  have h1 := joinSegs_length t ts
  rw [hj] at h1
  simp at h1
  exact h h1

theorem joinSegs_head? (t : Str) (ts : List Str) (h : t ≠ []) :
    (joinSegs (t :: ts)).head? = t.head? := by
  cases t with
  | nil => exact absurd rfl h
  | cons c cs =>
    cases ts with
    | nil => rfl
    | cons u us => rw [joinSegs_cons_cons] ; rfl

/-! ### strip_prefix / strip_suffix -/

theorem stripPre_self_append (pat X : Str) : stripPre pat (pat ++ X) = some X := by
  induction pat with
  | nil => rfl
  | cons p ps ih => simp [stripPre, ih]

theorem stripPre_slash (x : Str) : stripPre ['/'] ('/' :: x) = some x := rfl

theorem stripSuffix_self_append (X S : Str) : stripSuffix (X ++ S) S = some X := by
  simp [stripSuffix, List.reverse_append, stripPre_self_append]

theorem stripSuffix_none_of_getLast (s suf : Str) (h1 : suf ≠ [])
    (h2 : s.getLast? ≠ suf.getLast?) : stripSuffix s suf = none := by
  unfold stripSuffix
  cases hsr : suf.reverse with
  | nil => exact absurd (List.reverse_eq_nil_iff.mp hsr) h1
  | cons c cs =>
    cases hs : s.reverse with
    | nil => simp [stripPre]
    | cons d ds =>
      have hds : s.getLast? = some d := by
        rw [← List.head?_reverse, hs] ; rfl
      have hcs : suf.getLast? = some c := by
        rw [← List.head?_reverse, hsr] ; rfl
      have hdc : d ≠ c := by
        intro he
        exact h2 (by rw [hds, hcs, he])
      simp [stripPre, hdc]

theorem getLast?_append_right (X Y : Str) (h : Y ≠ []) :
    (X ++ Y).getLast? = Y.getLast? :=
  List.getLast?_append_of_ne_nil X h

theorem getLast?_all (t : Str) (p : Char → Bool) (h0 : t ≠ [])
    (h : t.all p = true) : ∃ d, t.getLast? = some d ∧ p d = true := by
  refine ⟨t.getLast h0, List.getLast?_eq_getLast_of_ne_nil h0, ?_⟩
  exact List.all_eq_true.mp h _ (List.getLast_mem h0)

/-! ### The rightmost-"/c" search -/

theorem hasSlashC_cons (a : Char) (rest : Str) :
    hasSlashC (a :: rest) =
      if a = '/' ∧ rest.head? = some 'c' then true else hasSlashC rest := rfl

theorem rsplitSlashC_cons (a : Char) (rest : Str) :
    rsplitSlashC (a :: rest) =
      match rsplitSlashC rest with
      | some (pre, post) => some (a :: pre, post)
      | none =>
        if a = '/' ∧ rest.head? = some 'c' then some ([], rest.drop 1)
        else none := rfl

theorem rsplitSlashC_eq_none (s : Str) (h : hasSlashC s = false) :
    rsplitSlashC s = none := by
  induction s with
  | nil => rfl
  | cons a rest ih =>
    rw [hasSlashC_cons] at h
    rw [rsplitSlashC_cons]
    split at h
    · exact absurd h (by simp)
    · rename_i hcond
      rw [ih h]
      exact if_neg hcond

theorem rsplitSlashC_append (A X : Str) (h : hasSlashC ('c' :: X) = false) :
    rsplitSlashC (A ++ '/' :: 'c' :: X) = some (A, X) := by
  induction A with
  | nil =>
    simp only [List.nil_append]
    rw [rsplitSlashC_cons, rsplitSlashC_eq_none _ h]
    exact if_pos ⟨rfl, rfl⟩
  | cons a A' ih =>
    rw [List.cons_append, rsplitSlashC_cons, ih]

theorem hasSlashC_append_of_no_slash (p s : Str) (h : ∀ c ∈ p, c ≠ '/') :
    hasSlashC (p ++ s) = hasSlashC s := by
  induction p with
  | nil => rfl
  | cons c rest ih =>
    rw [List.cons_append, hasSlashC_cons,
      if_neg (fun hcond => h c (List.mem_cons_self c rest) hcond.1)]
    exact ih (fun x hx => h x (List.mem_cons_of_mem c hx))

theorem hasSlashC_of_all_digits (t : Str) (h : t.all Char.isDigit = true) :
    hasSlashC t = false := by
  induction t with
  | nil => rfl
  | cons c rest ih =>
    simp only [List.all_cons, Bool.and_eq_true] at h
    rw [hasSlashC_cons, if_neg, ih h.2]
    intro hcond
    rw [hcond.1] at h
    exact absurd h.1 (by decide)

theorem isDigit_ne_slash (c : Char) (h : c.isDigit = true) : c ≠ '/' := by
  intro he ; rw [he] at h ; exact absurd h (by decide)

theorem isDigit_ne_c (c : Char) (h : c.isDigit = true) : c ≠ 'c' := by
  intro he ; rw [he] at h ; exact absurd h (by decide)

theorem isDigit_ne_n (c : Char) (h : c.isDigit = true) : c ≠ 'n' := by
  intro he ; rw [he] at h ; exact absurd h (by decide)

theorem isDigit_ne_plus (c : Char) (h : c.isDigit = true) : c ≠ '+' := by
  intro he ; rw [he] at h ; exact absurd h (by decide)

/-- All-digit, slash-separated coordinate text contains no `"/c"` after the
    `'c'` marker: `hasSlashC ('c' :: '/' :: joinSegs parts) = false`. -/
theorem hasSlashC_coords (parts : List Str) (h0 : parts ≠ [])
    (h : ∀ t ∈ parts, t ≠ [] ∧ t.all Char.isDigit = true) :
    hasSlashC ('c' :: '/' :: joinSegs parts) = false := by
  have main : ∀ parts, parts ≠ [] →
      (∀ t ∈ parts, t ≠ [] ∧ t.all Char.isDigit = true) →
      hasSlashC ('/' :: joinSegs parts) = false := by
    intro parts
    induction parts with
    | nil => intro h0 _ ; exact absurd rfl h0
    | cons t ts ih =>
      intro _ hall
      obtain ⟨ht, htd⟩ := hall t (List.mem_cons_self t ts)
      cases ts with
      | nil =>
        simp only [joinSegs]
        rw [hasSlashC_cons, if_neg, hasSlashC_of_all_digits t htd]
        intro hcond
        cases t with
        | nil => exact ht rfl
        | cons c cs =>
          have hcd : c.isDigit = true :=
            List.all_eq_true.mp htd c (List.mem_cons_self c cs)
          exact isDigit_ne_c c hcd (by simpa using hcond.2)
      | cons u us =>
        rw [joinSegs_cons_cons, hasSlashC_cons, if_neg]
        · rw [hasSlashC_append_of_no_slash t _
            (fun x hx => isDigit_ne_slash x (List.all_eq_true.mp htd x hx))]
          exact ih (by simp) (fun x hx => hall x (List.mem_cons_of_mem t hx))
        · intro hcond
          cases t with
          | nil => exact ht rfl
          | cons c cs =>
            have hcd : c.isDigit = true :=
              List.all_eq_true.mp htd c (List.mem_cons_self c cs)
            exact isDigit_ne_c c hcd (by simpa using hcond.2)
  rw [hasSlashC_cons, if_neg, main parts h0 h]
  simp

/-! ### Decimal formatting round-trips through u64 parsing -/

theorem digitChr_isDigit (d : Nat) (h : d < 10) : (digitChr d).isDigit = true := by
  interval_cases d <;> decide

theorem digitChr_val (d : Nat) (h : d < 10) : (digitChr d).toNat - 48 = d := by
  interval_cases d <;> decide

theorem fmtNatAux_acc (fuel n : Nat) (acc : Str) :
    fmtNatAux fuel n acc = fmtNatAux fuel n [] ++ acc := by
  induction fuel generalizing n acc with
  | zero => rfl
  | succ fuel ih =>
    unfold fmtNatAux
    by_cases h : n < 10
    · rw [if_pos h, if_pos h]
      rfl
    · rw [if_neg h, if_neg h, ih (n / 10) (digitChr (n % 10) :: acc),
        ih (n / 10) [digitChr (n % 10)], List.append_assoc]
      rfl

theorem fmtNatAux_fuel (f1 f2 n : Nat) (h1 : n < f1) (h2 : n < f2) :
    fmtNatAux f1 n [] = fmtNatAux f2 n [] := by
  induction f1 generalizing f2 n with
  | zero => omega
  | succ f1 ih =>
    cases f2 with
    | zero => omega
    | succ f2 =>
      unfold fmtNatAux
      by_cases h : n < 10
      · rw [if_pos h, if_pos h]
      · have hd : n / 10 < n := Nat.div_lt_self (by omega) (by omega)
        rw [if_neg h, if_neg h, fmtNatAux_acc f1, fmtNatAux_acc f2,
          ih f2 (n / 10) (by omega) (by omega)]

theorem fmtNat_lt_ten (n : Nat) (h : n < 10) : fmtNat n = [digitChr n] := by
  unfold fmtNat fmtNatAux
  rw [if_pos h, Nat.mod_eq_of_lt h]

theorem fmtNat_ge_ten (n : Nat) (h : ¬n < 10) :
    fmtNat n = fmtNat (n / 10) ++ [digitChr (n % 10)] := by
  unfold fmtNat
  conv =>
    lhs
    unfold fmtNatAux
  rw [if_neg h, fmtNatAux_acc]
  congr 1
  exact fmtNatAux_fuel n (n / 10 + 1) (n / 10)
    (Nat.div_lt_self (by omega) (by omega)) (Nat.lt_succ_self _)

theorem fmtNat_ne_nil (n : Nat) : fmtNat n ≠ [] := by
  by_cases h : n < 10
  · rw [fmtNat_lt_ten n h] ; simp
  · rw [fmtNat_ge_ten n h] ; simp

theorem fmtNat_all_digits (n : Nat) : (fmtNat n).all Char.isDigit = true := by
  induction n using Nat.strong_induction_on with
  | _ n ih =>
    by_cases h : n < 10
    · rw [fmtNat_lt_ten n h]
      simp [digitChr_isDigit n h]
    · have hd : n / 10 < n := Nat.div_lt_self (by omega) (by omega)
      rw [fmtNat_ge_ten n h, List.all_append, ih (n / 10) hd]
      simp [digitChr_isDigit (n % 10) (Nat.mod_lt n (by omega))]

theorem fmtNat_foldl (n : Nat) :
    (fmtNat n).foldl (fun a c => a * 10 + (c.toNat - 48)) 0 = n := by
  induction n using Nat.strong_induction_on with
  | _ n ih =>
    by_cases h : n < 10
    · rw [fmtNat_lt_ten n h]
      simp [digitChr_val n h]
    · rw [fmtNat_ge_ten n h, List.foldl_append,
        ih (n / 10) (Nat.div_lt_self (by omega) (by omega))]
      simp only [List.foldl_cons, List.foldl_nil]
      rw [digitChr_val (n % 10) (Nat.mod_lt n (by omega))]
      omega

theorem parseU64_fmtNat (n : Nat) (h : n < 2 ^ 64) :
    parseU64 (fmtNat n) = some n := by
  have hall := fmtNat_all_digits n
  have hne := fmtNat_ne_nil n
  have hhead : (fmtNat n).head? ≠ some '+' := by
    cases hf : fmtNat n with
    | nil => exact absurd hf hne
    | cons c cs =>
      intro hc
      have hcd : c.isDigit = true := by
        rw [hf] at hall
        exact List.all_eq_true.mp hall c (List.mem_cons_self c cs)
      exact isDigit_ne_plus c hcd (by simpa using hc)
  unfold parseU64
  simp only [if_neg hhead]
  rw [if_neg hne, if_pos hall, fmtNat_foldl n, if_pos h]

/-! ### Round-trip machinery for well-formed keys -/

/-- The tail that `Key::to_string` appends after the `"/c"` marker of a chunk
    key: nothing for empty coordinates, otherwise a slash and the
    slash-joined decimal coordinates. -/
def coordsSuffix (cs : List Nat) : Str :=
  match cs with
  | [] => []
  | _ :: _ => '/' :: joinSegs (cs.map fmtNat)

/-- A normalized absolute path (spec section 9: always-absolute, no trailing
    slash except at the root, no empty segments). -/
def validAbsPath (p : Str) : Bool :=
  p = ['/'] || (p.head? = some '/' && (splitOnSlash (p.drop 1)).all (fun t => !t.isEmpty))

/-- Well-formedness of a structured key: a normalized absolute node path,
    coordinates representable as u64, and (the exception established by the
    counterexample below) no coordinates on a root chunk. -/
def Key.wfB : Key → Bool
  | .Metadata p => validAbsPath p
  | .Chunk p cs =>
    validAbsPath p && cs.all (fun n => decide (n < 2 ^ 64)) &&
      !(p = ['/'] && !cs.isEmpty)

theorem head?_append_left (A B : Str) (h : A ≠ []) : (A ++ B).head? = A.head? := by
  cases A with
  | nil => exact absurd rfl h
  | cons c l => rfl

theorem validAbsPath_elim (p : Str) (h : validAbsPath p = true) (hne : p ≠ ['/']) :
    ∃ rest, p = '/' :: rest ∧ splitOnSlash rest ≠ [] ∧
      (∀ t ∈ splitOnSlash rest, t ≠ [] ∧ '/' ∉ t) ∧
      joinSegs (splitOnSlash rest) = rest := by
  unfold validAbsPath at h
  rw [Bool.or_eq_true] at h
  rcases h with h | h
  · exact absurd (by simpa using h) hne
  · rw [Bool.and_eq_true] at h
    obtain ⟨hh, hall⟩ := h
    cases p with
    | nil => simp at hh
    | cons a rest =>
      have ha : a = '/' := by simpa using hh
      subst ha
      refine ⟨rest, rfl, splitOnSlash_ne_nil rest, ?_, joinSegs_splitOnSlash rest⟩
      intro t ht
      have h2 : ∀ x ∈ splitOnSlash rest, ¬x = [] := by simpa using hall
      exact ⟨h2 t ht, mem_splitOnSlash_no_slash rest t ht⟩

theorem trimSlashes_of_head (x : Str) (c : Char) (hx : x.head? = some c)
    (hc : c ≠ '/') : trimSlashes x = x := by
  cases x with
  | nil => simp at hx
  | cons a l =>
    have ha : a = c := by simpa using hx
    subst ha
    unfold trimSlashes
    rw [if_neg hc]

/-- `Key::to_string` on a non-root metadata key. -/
theorem toString_metadata_eq (t : Str) (ts : List Str) (h : t ≠ [])
    (hs : '/' ∉ t) :
    Key.toString (.Metadata ('/' :: joinSegs (t :: ts)))
      = some (joinSegs (t :: ts) ++ metaSuffix) := by
  unfold Key.toString
  simp only [List.drop_succ_cons, List.drop_zero]
  cases t with
  | nil => exact absurd rfl h
  | cons c cs =>
    have hc : c ≠ '/' := fun he => hs (he ▸ List.mem_cons_self c cs)
    have hhead : (joinSegs ((c :: cs) :: ts) ++ metaSuffix).head? = some c := by
      rw [head?_append_left _ _ (joinSegs_ne_nil (c :: cs) ts (by simp)),
        joinSegs_head? (c :: cs) ts (by simp)]
      rfl
    rw [trimSlashes_of_head _ c hhead hc]

/-- `Key::parse` on a non-root metadata key. -/
theorem parse_metadata_eq (t : Str) (ts : List Str) (h : t ≠ [])
    (hs : '/' ∉ t) :
    Key.parse (joinSegs (t :: ts) ++ metaSuffix)
      = .ok (.Metadata ('/' :: joinSegs (t :: ts))) := by
  have hlen : 1 ≤ (joinSegs (t :: ts)).length := by
    have h1 := joinSegs_length t ts
    cases t with
    | nil => exact absurd rfl h
    | cons c cs => simp at h1 ; omega
  have h1 : joinSegs (t :: ts) ++ metaSuffix ≠ rootKeyS := by
    intro he
    have h2 := congrArg List.length he
    rw [List.length_append] at h2
    have e1 : metaSuffix.length = 10 := rfl
    have e2 : rootKeyS.length = 9 := rfl
    omega
  have hhead : ¬(joinSegs (t :: ts) ++ metaSuffix).head? = some '/' := by
    rw [head?_append_left _ _ (joinSegs_ne_nil t ts h), joinSegs_head? t ts h]
    cases ht : t with
    | nil => exact absurd ht h
    | cons c cs =>
      have hc : c ≠ '/' := fun he => hs (ht ▸ he ▸ List.mem_cons_self c cs)
      simpa using hc
  unfold Key.parse
  rw [if_neg h1, if_neg hhead, stripSuffix_self_append]

theorem joinSegs_getLast_digit (parts : List Str) (h0 : parts ≠ [])
    (h : ∀ t ∈ parts, t ≠ [] ∧ t.all Char.isDigit = true) :
    ∃ d, (joinSegs parts).getLast? = some d ∧ d.isDigit = true := by
  induction parts with
  | nil => exact absurd rfl h0
  | cons t ts ih =>
    obtain ⟨ht, htd⟩ := h t (List.mem_cons_self t ts)
    cases ts with
    | nil => exact getLast?_all t Char.isDigit ht htd
    | cons u us =>
      rw [joinSegs_cons_cons, getLast?_append_right _ _ (by simp)]
      have hu : joinSegs (u :: us) ≠ [] :=
        joinSegs_ne_nil u us (h u (by simp)).1
      have : ('/' :: joinSegs (u :: us)) = ['/'] ++ joinSegs (u :: us) := rfl
      rw [this, getLast?_append_right _ _ hu]
      exact ih (by simp) (fun x hx => h x (List.mem_cons_of_mem t hx))

theorem chunkKey_getLast (A : Str) (cs : List Nat) :
    ∃ d, (A ++ '/' :: 'c' :: coordsSuffix cs).getLast? = some d ∧
      (d = 'c' ∨ d.isDigit = true) := by
  cases cs with
  | nil =>
    refine ⟨'c', ?_, Or.inl rfl⟩
    rw [getLast?_append_right _ _ (by simp)]
    rfl
  | cons n cs' =>
    have hmap : ∀ t ∈ (n :: cs').map fmtNat, t ≠ [] ∧ t.all Char.isDigit = true := by
      intro t ht
      obtain ⟨m, _, rfl⟩ := List.mem_map.mp ht
      exact ⟨fmtNat_ne_nil m, fmtNat_all_digits m⟩
    obtain ⟨d, hd, hdd⟩ := joinSegs_getLast_digit ((n :: cs').map fmtNat)
      (by simp) hmap
    refine ⟨d, ?_, Or.inr hdd⟩
    rw [getLast?_append_right _ _ (by simp)]
    show (('/' :: 'c' :: '/' :: joinSegs ((n :: cs').map fmtNat)).getLast?) = some d
    have : ('/' :: 'c' :: '/' :: joinSegs ((n :: cs').map fmtNat))
        = ['/', 'c', '/'] ++ joinSegs ((n :: cs').map fmtNat) := rfl
    rw [this, getLast?_append_right]
    · exact hd
    · have := fmtNat_ne_nil n
      exact joinSegs_ne_nil (fmtNat n) (cs'.map fmtNat) this

theorem parseCoords_map (cs : List Nat) (h : ∀ n ∈ cs, n < 2 ^ 64) :
    parseCoords (cs.map fmtNat) = some cs := by
  induction cs with
  | nil => rfl
  | cons n ns ih =>
    simp only [List.map_cons]
    unfold parseCoords
    rw [parseU64_fmtNat n (h n (List.mem_cons_self n ns)),
      ih (fun m hm => h m (List.mem_cons_of_mem n hm))]

/-- `Key::to_string` on a non-root chunk key. -/
theorem toString_chunk_eq (t : Str) (ts : List Str) (cs : List Nat)
    (h : t ≠ []) :
    Key.toString (.Chunk ('/' :: joinSegs (t :: ts)) cs)
      = some (joinSegs (t :: ts) ++ '/' :: 'c' :: coordsSuffix cs) := by
  unfold Key.toString
  simp only [List.drop_succ_cons, List.drop_zero, Option.some.injEq]
  have hA : joinSegs (t :: ts) ≠ [] := joinSegs_ne_nil t ts h
  have hA' : (joinSegs (t :: ts)).isEmpty = false := by
    cases hj : joinSegs (t :: ts) with
    | nil => exact absurd hj hA
    | cons a l => rfl
  cases cs with
  | nil =>
    have hfil : List.filter (fun s => !s.isEmpty)
        [joinSegs (t :: ts), ['c'], joinSegs (([] : List Nat).map fmtNat)]
        = [joinSegs (t :: ts), ['c']] := by
      simp only [List.filter_cons, hA']
      simp [joinSegs]
    rw [hfil]
    rfl
  | cons n ns =>
    have hJ : joinSegs ((n :: ns).map fmtNat) ≠ [] := by
      simp only [List.map_cons]
      exact joinSegs_ne_nil (fmtNat n) (ns.map fmtNat) (fmtNat_ne_nil n)
    have hJ' : (joinSegs ((n :: ns).map fmtNat)).isEmpty = false := by
      cases hj : joinSegs ((n :: ns).map fmtNat) with
      | nil => exact absurd hj hJ
      | cons a l => rfl
    have hfil : List.filter (fun s => !s.isEmpty)
        [joinSegs (t :: ts), ['c'], joinSegs ((n :: ns).map fmtNat)]
        = [joinSegs (t :: ts), ['c'], joinSegs ((n :: ns).map fmtNat)] := by
      simp only [List.filter_cons, hA', hJ']
      simp
    rw [hfil, joinSegs_cons_cons]
    rfl

/-- `Key::parse` on a non-root chunk key. -/
theorem parse_chunk_eq (t : Str) (ts : List Str) (cs : List Nat) (h : t ≠ [])
    (hs : '/' ∉ t) (hcs : ∀ n ∈ cs, n < 2 ^ 64) :
    Key.parse (joinSegs (t :: ts) ++ '/' :: 'c' :: coordsSuffix cs)
      = .ok (.Chunk ('/' :: joinSegs (t :: ts)) cs) := by
  obtain ⟨d, hd, hdd⟩ := chunkKey_getLast (joinSegs (t :: ts)) cs
  have hdn : d ≠ 'n' := by
    rcases hdd with h1 | h1
    · rw [h1] ; decide
    · exact isDigit_ne_n d h1
  have h1 : joinSegs (t :: ts) ++ '/' :: 'c' :: coordsSuffix cs ≠ rootKeyS := by
    intro he
    have h2 := congrArg List.getLast? he
    rw [hd] at h2
    have : rootKeyS.getLast? = some 'n' := rfl
    rw [this] at h2
    exact hdn (by simpa using h2)
  have hhead : ¬(joinSegs (t :: ts) ++ '/' :: 'c' :: coordsSuffix cs).head?
      = some '/' := by
    rw [head?_append_left _ _ (joinSegs_ne_nil t ts h), joinSegs_head? t ts h]
    cases ht : t with
    | nil => exact absurd ht h
    | cons c l =>
      have hc : c ≠ '/' := fun he => hs (ht ▸ he ▸ List.mem_cons_self c l)
      simpa using hc
  have hstrip : stripSuffix (joinSegs (t :: ts) ++ '/' :: 'c' :: coordsSuffix cs)
      metaSuffix = none := by
    apply stripSuffix_none_of_getLast _ _ (by decide)
    rw [hd]
    have : metaSuffix.getLast? = some 'n' := rfl
    rw [this]
    simpa using hdn
  have hlen : 1 ≤ (joinSegs (t :: ts)).length := by
    have h2 := joinSegs_length t ts
    cases t with
    | nil => exact absurd rfl h
    | cons c l => simp at h2 ; omega
  have hnec : joinSegs (t :: ts) ++ '/' :: 'c' :: coordsSuffix cs ≠ ['c'] := by
    intro he
    have h2 := congrArg List.length he
    rw [List.length_append] at h2
    simp at h2
    omega
  unfold Key.parse
  rw [if_neg h1, if_neg hhead, hstrip]
  unfold parseChunk
  rw [if_neg hnec]
  cases cs with
  | nil =>
    rw [show coordsSuffix [] = [] from rfl,
      rsplitSlashC_append _ [] (by decide)]
    rfl
  | cons n ns =>
    have hmap : ∀ x ∈ (n :: ns).map fmtNat, x ≠ [] ∧ x.all Char.isDigit = true := by
      intro x hx
      obtain ⟨m, _, rfl⟩ := List.mem_map.mp hx
      exact ⟨fmtNat_ne_nil m, fmtNat_all_digits m⟩
    rw [show coordsSuffix (n :: ns) = '/' :: joinSegs ((n :: ns).map fmtNat)
        from rfl,
      rsplitSlashC_append _ _ (hasSlashC_coords _ (by simp) hmap)]
    have hsplit : splitOnSlash (joinSegs ((n :: ns).map fmtNat))
        = (n :: ns).map fmtNat := by
      apply splitOnSlash_joinSegs _ (by simp)
      intro x hx
      obtain ⟨m, _, rfl⟩ := List.mem_map.mp hx
      intro hmem
      exact isDigit_ne_slash '/'
        (List.all_eq_true.mp (fmtNat_all_digits m) '/' hmem) rfl
    simp only [stripPre_slash, hsplit, parseCoords_map (n :: ns) hcs]
    rw [if_neg (by simp)]

/-! ### The section 6.2 key grammar, modelled from the spec -/

/-- Modelled from the spec: a path segment is a non-empty opaque string
    excluding `'/'` (spec sections 3 and 6.2). -/
def isSeg (s : Str) : Prop := s ≠ [] ∧ '/' ∉ s

/-- Modelled from the spec: a `uint` literal is a non-empty string of decimal
    digits (spec section 6.2, "uint is a non-negative decimal integer"). -/
def isUint (s : Str) : Prop := s ≠ [] ∧ ∀ c ∈ s, c.isDigit = true

/-- The `("/" uint)*` tail of a chunk production. -/
def coordsTail (cs : List Str) : Str := (cs.map (fun u => '/' :: u)).flatten

/-- Modelled from the spec: the key grammar of section 6.2 —
    `key ::= root-meta | node-meta | root-chunk | node-chunk`. -/
inductive LegalKey : Str → Prop
  | rootMeta : LegalKey rootKeyS
  | nodeMeta (segs : List Str) (h1 : segs ≠ []) (h2 : ∀ t ∈ segs, isSeg t) :
      LegalKey (joinSegs segs ++ metaSuffix)
  | rootChunk (cs : List Str) (h : ∀ u ∈ cs, isUint u) :
      LegalKey ('c' :: coordsTail cs)
  | nodeChunk (segs : List Str) (cs : List Str) (h1 : segs ≠ [])
      (h2 : ∀ t ∈ segs, isSeg t) (h3 : ∀ u ∈ cs, isUint u) :
      LegalKey (joinSegs segs ++ '/' :: 'c' :: coordsTail cs)

/-- The grammar restricted as the counterexamples force: root chunks carry no
    coordinates and every coordinate literal is the canonical decimal form of
    a u64 value. -/
inductive CanonicalKey : Str → Prop
  | rootMeta : CanonicalKey rootKeyS
  | nodeMeta (segs : List Str) (h1 : segs ≠ []) (h2 : ∀ t ∈ segs, isSeg t) :
      CanonicalKey (joinSegs segs ++ metaSuffix)
  | rootChunk : CanonicalKey ['c']
  | nodeChunk (segs : List Str) (cs : List Nat) (h1 : segs ≠ [])
      (h2 : ∀ t ∈ segs, isSeg t) (h3 : ∀ n ∈ cs, n < 2 ^ 64) :
      CanonicalKey (joinSegs segs ++ '/' :: 'c' :: coordsTail (cs.map fmtNat))

theorem coordsTail_eq_join (parts : List Str) (h : parts ≠ []) :
    coordsTail parts = '/' :: joinSegs parts := by
  induction parts with
  | nil => exact absurd rfl h
  | cons t ts ih =>
    cases ts with
    | nil => simp [coordsTail, joinSegs]
    | cons u us =>
      have h2 := ih (by simp)
      simp only [coordsTail, List.map_cons, List.flatten_cons] at h2 ⊢
      rw [h2, joinSegs_cons_cons]
      rfl

theorem coordsTail_map_fmtNat (cs : List Nat) :
    coordsTail (cs.map fmtNat) = coordsSuffix cs := by
  cases cs with
  | nil => rfl
  | cons n ns =>
    rw [coordsTail_eq_join _ (by simp)]
    rfl

/-! ### Claim C1 -/

/-- C1 counterexample: the structured key `Chunk { node_path: "/", coords: [0] }`
    has the UTF-8 string form `"c/0"`, but `Key::parse "c/0"` fails with
    `InvalidKey` — parse after format is not the identity. -/
theorem c1_counterexample :
    Key.toString (.Chunk ['/'] [0]) = some "c/0".data ∧
      Key.parse "c/0".data = .error (.InvalidKey "c/0".data) := by
  constructor
  · decide
  · decide

/-- C1 (amended): for every structured key whose node path is a normalized
    absolute path and whose coordinates are u64-representable, except a root
    chunk with non-empty coordinates, `Key::to_string` yields `Some s` and
    `Key::parse s` returns exactly the original key. -/
theorem c1_parse_after_format (k : Key) (h : Key.wfB k = true) :
    ∃ s, Key.toString k = some s ∧ Key.parse s = .ok k := by
  cases k with
  | Metadata p =>
    by_cases hp : p = ['/']
    · subst hp
      exact ⟨rootKeyS, by decide, by decide⟩
    · have hv : validAbsPath p = true := by simpa [Key.wfB] using h
      obtain ⟨rest, hpe, hsp, hall, hjoin⟩ := validAbsPath_elim p hv hp
      cases hsegs : splitOnSlash rest with
      | nil => exact absurd hsegs hsp
      | cons t ts =>
        have ht := hall t (hsegs ▸ List.mem_cons_self t ts)
        rw [hsegs] at hjoin
        subst hpe
        rw [← hjoin]
        exact ⟨_, toString_metadata_eq t ts ht.1 ht.2,
          parse_metadata_eq t ts ht.1 ht.2⟩
  | Chunk p cs =>
    have h' := h
    simp only [Key.wfB, Bool.and_eq_true] at h'
    obtain ⟨⟨hv, hbnd⟩, hexc⟩ := h'
    have hcs : ∀ n ∈ cs, n < 2 ^ 64 := by simpa using hbnd
    by_cases hp : p = ['/']
    · have hempty : cs = [] := by
        subst hp
        simp at hexc
        exact hexc
      subst hempty
      subst hp
      exact ⟨['c'], by decide, by decide⟩
    · obtain ⟨rest, hpe, hsp, hall, hjoin⟩ := validAbsPath_elim p hv hp
      cases hsegs : splitOnSlash rest with
      | nil => exact absurd hsegs hsp
      | cons t ts =>
        have ht := hall t (hsegs ▸ List.mem_cons_self t ts)
        rw [hsegs] at hjoin
        subst hpe
        rw [← hjoin]
        exact ⟨_, toString_chunk_eq t ts cs ht.1,
          parse_chunk_eq t ts cs ht.1 ht.2 hcs⟩

/-- C1 witness: instantiating the amended round trip at the concrete chunk
    key for node `/a/b` with coordinates `[0, 7]`. -/
theorem c1_parse_after_format_witness :
    Key.wfB (.Chunk "/a/b".data [0, 7]) = true ∧
      ∃ s, Key.toString (.Chunk "/a/b".data [0, 7]) = some s ∧
        Key.parse s = .ok (.Chunk "/a/b".data [0, 7]) :=
  ⟨by decide, c1_parse_after_format _ (by decide)⟩

/-! ### Claim C2 -/

/-- C2 counterexample: three legal keys of the section 6.2 grammar on which
    format-after-parse fails, one per restriction the amendment adds.  The
    root-chunk key `"c/0"` does not parse at all; the non-canonical
    coordinate literal `"01"` in `"a/c/01"` parses to 1 but is re-formatted
    canonically, yielding `"a/c/1"` rather than the original string; and the
    coordinate literal of `"a/c/18446744073709551616"` (the value 2^64)
    overflows u64, so the key does not parse. -/
theorem c2_counterexample :
    (LegalKey "c/0".data ∧ (Key.parse "c/0".data).isOk = false) ∧
      (LegalKey "a/c/01".data ∧
        Key.parse "a/c/01".data = .ok (.Chunk "/a".data [1]) ∧
        Key.toString (.Chunk "/a".data [1]) = some "a/c/1".data ∧
        "a/c/1".data ≠ "a/c/01".data) ∧
      (LegalKey "a/c/18446744073709551616".data ∧
        (Key.parse "a/c/18446744073709551616".data).isOk = false) := by
  have huint : ∀ u : Str, u ≠ [] → u.all Char.isDigit = true → isUint u := by
    intro u h1 h2
    exact ⟨h1, fun c hc => List.all_eq_true.mp h2 c hc⟩
  have hsega : ∀ t ∈ [['a']], isSeg t := by
    intro t ht
    simp at ht
    subst ht
    exact ⟨by simp, by decide⟩
  refine ⟨⟨?_, by decide⟩, ⟨?_, by decide, by decide, by decide⟩,
    ⟨?_, by decide⟩⟩
  · have he : ('c' :: coordsTail [['0']]) = "c/0".data := by decide
    have hl := LegalKey.rootChunk [['0']] (by
      intro u hu
      simp at hu
      subst hu
      exact huint _ (by simp) (by decide))
    rw [he] at hl
    exact hl
  · have he : (joinSegs [['a']] ++ '/' :: 'c' :: coordsTail [['0', '1']])
        = "a/c/01".data := by decide
    have hl := LegalKey.nodeChunk [['a']] [['0', '1']] (by simp) hsega (by
      intro u hu
      simp at hu
      subst hu
      exact huint _ (by simp) (by decide))
    rw [he] at hl
    exact hl
  · have he : (joinSegs [['a']] ++ '/' :: 'c'
        :: coordsTail ["18446744073709551616".data]) =
        "a/c/18446744073709551616".data := by decide
    have hl := LegalKey.nodeChunk [['a']] ["18446744073709551616".data]
      (by simp) hsega (by
        intro u hu
        simp at hu
        subst hu
        exact huint _ (by decide) (by decide))
    rw [he] at hl
    exact hl

/-- C2 (amended): for every legal key of the section 6.2 grammar that is not
    a root chunk with coordinates and whose coordinate literals are canonical
    decimals of u64 values, `Key::parse` succeeds and `Key::to_string` maps
    the result back to the same string. -/
theorem c2_format_after_parse (s : Str) (h : CanonicalKey s) :
    ∃ k, Key.parse s = .ok k ∧ Key.toString k = some s := by
  cases h with
  | rootMeta => exact ⟨.Metadata ['/'], by decide, by decide⟩
  | nodeMeta segs h1 h2 =>
    cases segs with
    | nil => exact absurd rfl h1
    | cons t ts =>
      have ht := h2 t (List.mem_cons_self t ts)
      exact ⟨_, parse_metadata_eq t ts ht.1 ht.2,
        toString_metadata_eq t ts ht.1 ht.2⟩
  | rootChunk => exact ⟨.Chunk ['/'] [], by decide, by decide⟩
  | nodeChunk segs cs h1 h2 h3 =>
    cases segs with
    | nil => exact absurd rfl h1
    | cons t ts =>
      have ht := h2 t (List.mem_cons_self t ts)
      rw [coordsTail_map_fmtNat]
      exact ⟨_, parse_chunk_eq t ts cs ht.1 ht.2 h3,
        toString_chunk_eq t ts cs ht.1⟩

/-- C2 witness: instantiating the amended statement at the concrete legal key
    `"a/c/12"`. -/
theorem c2_format_after_parse_witness :
    CanonicalKey "a/c/12".data ∧
      ∃ k, Key.parse "a/c/12".data = .ok k ∧ Key.toString k = some "a/c/12".data := by
  have he : (joinSegs [['a']] ++ '/' :: 'c' :: coordsTail ([12].map fmtNat))
      = "a/c/12".data := by decide
  have hc : CanonicalKey "a/c/12".data := by
    rw [← he]
    exact CanonicalKey.nodeChunk [['a']] [12] (by simp)
      (by
        intro x hx
        simp at hx
        subst hx
        exact ⟨by simp, by simp⟩)
      (by
        intro n hn
        simp at hn
        subst hn
        norm_num)
  exact ⟨hc, c2_format_after_parse _ hc⟩

/-! ### Claim C3 -/

/-- The set of strings `Key::parse` actually accepts, stated declaratively:
    `"zarr.json"`; any string without a leading `'/'` that ends in
    `"/zarr.json"`; the string `"c"`; and any string without a leading `'/'`
    containing `"/c"` whose part after the rightmost `"/c"` is empty, or is a
    `'/'` followed by slash-separated segments that each parse as a u64
    literal (optional leading `'+'`, ASCII digits, value below 2^64). -/
def acceptSpec (s : Str) : Bool :=
  if s = rootKeyS then true
  else if s.head? = some '/' then false
  else if (stripSuffix s metaSuffix).isSome then true
  else if s = ['c'] then true
  else
    match rsplitSlashC s with
    | some (_, rest) =>
      if rest = [] then true
      else
        match stripPre ['/'] rest with
        | some r => (splitOnSlash r).all (fun seg => (parseU64 seg).isSome)
        | none => false
    | none => false

theorem parseCoords_isSome (l : List Str) :
    (parseCoords l).isSome = l.all (fun seg => (parseU64 seg).isSome) := by
  induction l with
  | nil => rfl
  | cons t ts ih =>
    unfold parseCoords
    cases hp : parseU64 t with
    | none => simp [hp]
    | some n =>
      cases hc : parseCoords ts with
      | none =>
        rw [hc] at ih
        simp [hp, ← ih]
      | some cs =>
        rw [hc] at ih
        simp [hp, ← ih]

/-- C3 counterexample: `"c/0"` matches the section 6.2 grammar (root-chunk
    with one coordinate), yet `Key::parse` returns an error — the claimed
    "Ok iff the string matches the grammar" equivalence is false. -/
theorem c3_counterexample :
    LegalKey "c/0".data ∧ (Key.parse "c/0".data).isOk = false ∧
      Key.parse "c/0".data = .error (.InvalidKey "c/0".data) := by
  refine ⟨?_, by decide, by decide⟩
  have he : ('c' :: coordsTail [['0']]) = "c/0".data := by decide
  have hl := LegalKey.rootChunk [['0']] (by
    intro u hu
    simp at hu
    subst hu
    refine ⟨by simp, ?_⟩
    intro c hc
    simp at hc
    subst hc
    decide)
  rw [he] at hl
  exact hl

/-- C3 (amended): `Key::parse` succeeds exactly on the strings described by
    `acceptSpec` (which differs from the section 6.2 grammar: root chunks
    with coordinates are rejected, while empty path segments, `'+'`-signed
    coordinates, and other non-grammar strings ending in `"/zarr.json"` are
    accepted); on every other string it fails with `InvalidKey` carrying that
    key. -/
theorem c3_parse_characterization (s : Str) :
    ((Key.parse s).isOk = acceptSpec s) ∧
      ((Key.parse s).isOk = true ∨ Key.parse s = .error (.InvalidKey s)) := by
  unfold Key.parse acceptSpec parseChunk
  by_cases h1 : s = rootKeyS
  · simp [h1, Except.isOk, Except.toBool]
  · rw [if_neg h1, if_neg h1]
    by_cases h2 : s.head? = some '/'
    · simp [h2, Except.isOk, Except.toBool]
    · rw [if_neg h2, if_neg h2]
      cases hst : stripSuffix s metaSuffix with
      | some path => simp [Except.isOk, Except.toBool]
      | none =>
        simp only [Option.isSome_none, Bool.false_eq_true, if_false]
        by_cases h3 : s = ['c']
        · simp [h3, Except.isOk, Except.toBool]
        · rw [if_neg h3, if_neg h3]
          cases hr : rsplitSlashC s with
          | none => simp [Except.isOk, Except.toBool]
          | some pr =>
            obtain ⟨path, rest⟩ := pr
            by_cases h4 : rest = []
            · simp [h4, Except.isOk, Except.toBool]
            · simp only [h4, if_false]
              cases hsp : stripPre ['/'] rest with
              | none => simp [Except.isOk, Except.toBool]
              | some r =>
                have hps := parseCoords_isSome (splitOnSlash r)
                cases hpc : parseCoords (splitOnSlash r) with
                | none =>
                  rw [hpc] at hps
                  simp [hpc, ← hps, Except.isOk, Except.toBool]
                | some cs =>
                  rw [hpc] at hps
                  simp [hpc, ← hps, Except.isOk, Except.toBool]

-- Sanity checks mirroring the Rust unit tests `test_parse_key` and
-- `test_format_key`.
example : Key.parse "zarr.json".data = .ok (.Metadata "/".data) := by decide
example : Key.parse "a/zarr.json".data = .ok (.Metadata "/a".data) := by decide
example : Key.parse "a/b/c/zarr.json".data = .ok (.Metadata "/a/b/c".data) := by
  decide
example : Key.parse "foo/c".data = .ok (.Chunk "/foo".data []) := by decide
example : Key.parse "foo/bar/c".data = .ok (.Chunk "/foo/bar".data []) := by
  decide
example : Key.parse "foo/c/1/2/3".data = .ok (.Chunk "/foo".data [1, 2, 3]) := by
  decide
example : Key.parse "foo/bar/baz/c/1/2/3".data
    = .ok (.Chunk "/foo/bar/baz".data [1, 2, 3]) := by decide
example : Key.parse "c".data = .ok (.Chunk "/".data []) := by decide
example : Key.parse "/zarr.json".data = .error (.InvalidKey "/zarr.json".data) := by
  decide
example : Key.toString (.Metadata "/".data) = some "zarr.json".data := by decide
example : Key.toString (.Metadata "/a/b/c".data) = some "a/b/c/zarr.json".data := by
  decide
example : Key.toString (.Chunk "/".data []) = some "c".data := by decide
example : Key.toString (.Chunk "/".data [1, 2]) = some "c/1/2".data := by decide
example : Key.toString (.Chunk "/a".data []) = some "a/c".data := by decide
example : Key.toString (.Chunk "/a".data [1, 2]) = some "a/c/1/2".data := by decide

/-! ### JSON documents and the metadata bridge -/

/-- JSON values, as produced by serde_json.  Numbers are modelled as
    integers: every numeric field of the Zarr metadata schema is integral
    (shapes, chunk shapes, format versions, integer fill values);
    floating-point values are outside this model. -/
inductive Json where
  | null
  | bool (b : Bool)
  | num (n : Int)
  | str (s : Str)
  | arr (xs : List Json)
  | obj (fields : List (Str × Json))

/-- Field lookup in a JSON object (serde matches struct fields by name,
    independently of their order in the object). -/
def jlookup : List (Str × Json) → Str → Option Json
  | [], _ => none
  | (k, v) :: rest, key => if k = key then some v else jlookup rest key

theorem jlookup_cons (k : Str) (v : Json) (rest : List (Str × Json)) (key : Str) :
    jlookup ((k, v) :: rest) key = if k = key then some v else jlookup rest key :=
  rfl

/-- serde_json `Value::as_u64`. -/
def Json.asU64 : Json → Option Nat
  | .num n => if 0 ≤ n ∧ n < 2 ^ 64 then some n.toNat else none
  | _ => none

/-- serde_json `Value::as_str`. -/
def Json.asStr : Json → Option Str
  | .str s => some s
  | _ => none

def reqField (fields : List (Str × Json)) (k : Str) : Except JErr Json :=
  match jlookup fields k with
  | some v => .ok v
  | none => .error ("missing field ".data ++ k)

/-- Modelled from the spec: the `DataType` enumeration of the dataset engine
    (crate::dataset, not under src/; spec section 3: "one of a fixed
    enumeration (e.g. int32, float64, ...)").  A representative set of
    integral and boolean data types; floating-point types are outside this
    model. -/
inductive DataType where
  | int32
  | int64
  | uint8
  | bool_
  deriving DecidableEq

def DataType.parse : Json → Except JErr DataType
  | .str s =>
    if s = "int32".data then .ok .int32
    else if s = "int64".data then .ok .int64
    else if s = "uint8".data then .ok .uint8
    else if s = "bool".data then .ok .bool_
    else .error "unknown data_type".data
  | _ => .error "data_type must be a string".data

def DataType.render : DataType → Json
  | .int32 => .str "int32".data
  | .int64 => .str "int64".data
  | .uint8 => .str "uint8".data
  | .bool_ => .str "bool".data

/-- Modelled from the spec: a typed fill value constrained by the data type
    (spec section 3). -/
inductive FillValue where
  | int32 (v : Int)
  | int64 (v : Int)
  | uint8 (v : Nat)
  | boolean (b : Bool)

/-- Modelled from the spec: `FillValue::from_data_type_and_json`
    (crate::dataset, not under src/) — "the raw JSON value is coerced into
    the typed fill value by a data-type-directed converter", failing when the
    value is not valid for the data type. -/
def FillValue.fromDataTypeAndJson : DataType → Json → Except JErr FillValue
  | .int32, .num n =>
    if -(2 ^ 31) ≤ n ∧ n < 2 ^ 31 then .ok (.int32 n)
    else .error "fill_value out of range".data
  | .int64, .num n =>
    if -(2 ^ 63) ≤ n ∧ n < 2 ^ 63 then .ok (.int64 n)
    else .error "fill_value out of range".data
  | .uint8, .num n =>
    if 0 ≤ n ∧ n < 256 then .ok (.uint8 n.toNat)
    else .error "fill_value out of range".data
  | .bool_, .bool b => .ok (.boolean b)
  | _, _ => .error "fill_value invalid for data_type".data

/-- serde serialization of a fill value (`serde_json::to_value`, total). -/
def FillValue.toJson : FillValue → Json
  | .int32 v => .num v
  | .int64 v => .num v
  | .uint8 v => .num v
  | .boolean b => .bool b

/-- Validity of a fill value for a data type (spec section 3: "fill_value
    must be valid for its data_type"). -/
def FillValue.matchesType : FillValue → DataType → Prop
  | .int32 v, .int32 => -(2 ^ 31) ≤ v ∧ v < 2 ^ 31
  | .int64 v, .int64 => -(2 ^ 63) ≤ v ∧ v < 2 ^ 63
  | .uint8 v, .uint8 => v < 256
  | .boolean _, .bool_ => True
  | _, _ => False

/-- `NameConfigSerializer` from src/zarr.rs. -/
structure NameConfigSerializer where
  name : Str
  configuration : Json

def parseNameConfig (j : Json) : Except JErr NameConfigSerializer :=
  match j with
  | .obj fields =>
    match jlookup fields "name".data with
    | some nj =>
      match nj.asStr with
      | some n =>
        match jlookup fields "configuration".data with
        | some cj => .ok ⟨n, cj⟩
        | none => .error "missing configuration".data
      | none => .error "name must be a string".data
    | none => .error "missing name".data
  | _ => .error "expected an object".data

def renderNameConfig (nc : NameConfigSerializer) : Json :=
  .obj [("name".data, .str nc.name), ("configuration".data, nc.configuration)]

/-- `as_u64` over a JSON array, with the `NonZeroU64::try_from` check, as in
    the `TryFrom<NameConfigSerializer> for ChunkShape` conversion. -/
def traverseNonZeroU64 : List Json → Option (List Nat)
  | [] => some []
  | v :: rest =>
    match v.asU64, traverseNonZeroU64 rest with
    | some u, some us => if u ≠ 0 then some (u :: us) else none
    | _, _ => none

/-- `TryFrom<NameConfigSerializer> for ChunkShape` (src/zarr.rs): requires
    name "regular" and an object configuration holding a "chunk_shape" array
    of nonzero u64 values. -/
def chunkShapeOfNameConfig (v : NameConfigSerializer) : Except JErr (List Nat) :=
  match v.configuration with
  | .obj kvs =>
    if v.name = "regular".data then
      match jlookup kvs "chunk_shape".data with
      | some (.arr values) =>
        match traverseNonZeroU64 values with
        | some shape => .ok shape
        | none => .error "cannot parse ChunkShape".data
      | _ => .error "cannot parse ChunkShape".data
    else .error "cannot parse ChunkShape".data
  | _ => .error "cannot parse ChunkShape".data

/-- `From<ChunkShape> for NameConfigSerializer` (src/zarr.rs). -/
def nameConfigOfChunkShape (cs : List Nat) : NameConfigSerializer :=
  ⟨"regular".data,
    .obj [("chunk_shape".data, .arr (cs.map (fun (v : Nat) => Json.num (v : Int))))]⟩

/-- `ChunkKeyEncoding` (crate::dataset): only the `'/'` separator exists. -/
inductive ChunkKeyEncoding where
  | Slash
  deriving DecidableEq

/-- `TryFrom<NameConfigSerializer> for ChunkKeyEncoding` (src/zarr.rs):
    requires name "default" and a configuration whose "separator" is the
    string "/". -/
def chunkKeyEncodingOfNameConfig (v : NameConfigSerializer) :
    Except JErr ChunkKeyEncoding :=
  match v.configuration with
  | .obj kvs =>
    if v.name = "default".data then
      match jlookup kvs "separator".data with
      | some sep =>
        match sep.asStr with
        | some s =>
          if s = "/".data then .ok .Slash
          else .error "cannot parse ChunkKeyEncoding".data
        | none => .error "cannot parse ChunkKeyEncoding".data
      | none => .error "cannot parse ChunkKeyEncoding".data
    else .error "cannot parse ChunkKeyEncoding".data
  | _ => .error "cannot parse ChunkKeyEncoding".data

/-- `From<ChunkKeyEncoding> for NameConfigSerializer` (src/zarr.rs). -/
def nameConfigOfChunkKeyEncoding (_ : ChunkKeyEncoding) : NameConfigSerializer :=
  ⟨"default".data, .obj [("separator".data, .str "/".data)]⟩

/-- Modelled from the spec: a codec descriptor, "name + opaque configuration"
    (crate::dataset, not under src/; spec sections 3 and 6.1). -/
structure Codec where
  name : Str
  configuration : Json

/-- Modelled from the spec: a storage transformer descriptor, with the same
    envelope as a codec (spec section 3). -/
structure StorageTransformer where
  name : Str
  configuration : Json

def parseCodec (j : Json) : Except JErr Codec :=
  match j with
  | .obj fields =>
    match jlookup fields "name".data with
    | some nj =>
      match nj.asStr with
      | some n =>
        match jlookup fields "configuration".data with
        | some cj => .ok ⟨n, cj⟩
        | none => .error "missing configuration".data
      | none => .error "codec name must be a string".data
    | none => .error "missing codec name".data
  | _ => .error "codec must be an object".data

def renderCodec (c : Codec) : Json :=
  .obj [("name".data, .str c.name), ("configuration".data, c.configuration)]

def parseTransformer (j : Json) : Except JErr StorageTransformer :=
  match j with
  | .obj fields =>
    match jlookup fields "name".data with
    | some nj =>
      match nj.asStr with
      | some n =>
        match jlookup fields "configuration".data with
        | some cj => .ok ⟨n, cj⟩
        | none => .error "missing configuration".data
      | none => .error "transformer name must be a string".data
    | none => .error "missing transformer name".data
  | _ => .error "transformer must be an object".data

def renderTransformer (c : StorageTransformer) : Json :=
  .obj [("name".data, .str c.name), ("configuration".data, c.configuration)]

def parseList {α : Type} (f : Json → Except JErr α) : List Json → Except JErr (List α)
  | [] => .ok []
  | j :: rest =>
    match f j, parseList f rest with
    | .ok a, .ok as => .ok (a :: as)
    | .error e, _ => .error e
    | _, .error e => .error e

/-- `ZarrArrayMetadata` (crate::dataset): the flat structured array metadata
    record, as listed field by field in spec section 3. -/
structure ZarrArrayMetadata where
  shape : List Nat
  data_type : DataType
  chunk_shape : List Nat
  chunk_key_encoding : ChunkKeyEncoding
  fill_value : FillValue
  codecs : List Codec
  storage_transformers : Option (List StorageTransformer)
  dimension_names : Option (List (Option Str))

/-- `ArrayMetadata` from src/zarr.rs (outer envelope plus the flattened
    serializer fields). -/
structure ArrayMetadata where
  zarr_format : Nat
  node_type : Str
  attributes : Option Json
  zarr_metadata : ZarrArrayMetadata

/-- `ArrayMetadata::new` from src/zarr.rs. -/
def ArrayMetadata.new (attributes : Option Json)
    (zarr_metadata : ZarrArrayMetadata) : ArrayMetadata :=
  ⟨3, "array".data, attributes, zarr_metadata⟩

/-- `GroupMetadata` from src/zarr.rs. -/
structure GroupMetadata where
  zarr_format : Nat
  node_type : Str
  attributes : Option Json

/-- `GroupMetadata::new` from src/zarr.rs. -/
def GroupMetadata.new (attributes : Option Json) : GroupMetadata :=
  ⟨3, "group".data, attributes⟩

/-- u8 field parse (serde `u8`: an integer in 0..=255). -/
def parseU8Field (fields : List (Str × Json)) (k : Str) : Except JErr Nat :=
  match jlookup fields k with
  | some (.num n) =>
    if 0 ≤ n ∧ n < 256 then .ok n.toNat else .error "u8 out of range".data
  | some _ => .error "expected an integer".data
  | none => .error ("missing field ".data ++ k)

def parseStrField (fields : List (Str × Json)) (k : Str) : Except JErr Str :=
  match jlookup fields k with
  | some (.str s) => .ok s
  | some _ => .error "expected a string".data
  | none => .error ("missing field ".data ++ k)

/-- serde `Option<UserAttributes>`: a missing field or `null` is `None`; the
    attributes themselves are a free-form JSON object (spec section 3). -/
def parseAttrsField (fields : List (Str × Json)) : Except JErr (Option Json) :=
  match jlookup fields "attributes".data with
  | none => .ok none
  | some .null => .ok none
  | some (.obj fs) => .ok (some (.obj fs))
  | some _ => .error "attributes must be an object".data

def traverseU64 : List Json → Option (List Nat)
  | [] => some []
  | v :: rest =>
    match v.asU64, traverseU64 rest with
    | some u, some us => some (u :: us)
    | _, _ => none

/-- serde `ArrayShape` (a vector of u64 dimension extents). -/
def parseShapeField (fields : List (Str × Json)) : Except JErr (List Nat) :=
  match jlookup fields "shape".data with
  | some (.arr xs) =>
    match traverseU64 xs with
    | some s => .ok s
    | none => .error "bad shape".data
  | _ => .error "bad shape".data

def parseCodecsField (fields : List (Str × Json)) : Except JErr (List Codec) :=
  match jlookup fields "codecs".data with
  | some (.arr xs) => parseList parseCodec xs
  | _ => .error "bad codecs".data

/-- serde `Option<Vec<StorageTransformer>>`. -/
def parseTransformersField (fields : List (Str × Json)) :
    Except JErr (Option (List StorageTransformer)) :=
  match jlookup fields "storage_transformers".data with
  | none => .ok none
  | some .null => .ok none
  | some (.arr xs) =>
    match parseList parseTransformer xs with
    | .ok ts => .ok (some ts)
    | .error e => .error e
  | some _ => .error "bad storage_transformers".data

/-- A dimension name is a string or null (spec section 3). -/
def parseDim : Json → Except JErr (Option Str)
  | .null => .ok none
  | .str s => .ok (some s)
  | _ => .error "bad dimension name".data

def parseDimsField (fields : List (Str × Json)) :
    Except JErr (Option (List (Option Str))) :=
  match jlookup fields "dimension_names".data with
  | none => .ok none
  | some .null => .ok none
  | some (.arr xs) =>
    match parseList parseDim xs with
    | .ok ds => .ok (some ds)
    | .error e => .error e
  | some _ => .error "bad dimension_names".data

/-- serde deserialization of `ArrayMetadata` (src/zarr.rs): the outer fields,
    the flattened `ZarrArrayMetadataSerialzer` with its name/configuration
    envelopes, and finally the `TryFrom` conversion that coerces the raw
    `fill_value` through the data-type-directed converter.  Unknown object
    fields are ignored, as serde does by default. -/
def parseArrayMetadata (j : Json) : Except JErr ArrayMetadata := do
  match j with
  | .obj fields =>
    let zf ← parseU8Field fields "zarr_format".data
    let nt ← parseStrField fields "node_type".data
    let attrs ← parseAttrsField fields
    let shape ← parseShapeField fields
    let dt ← (match jlookup fields "data_type".data with
      | some dj => DataType.parse dj
      | none => .error "missing data_type".data)
    let gridNC ← (match jlookup fields "chunk_grid".data with
      | some gj => parseNameConfig gj
      | none => .error "missing chunk_grid".data)
    let chunk_shape ← chunkShapeOfNameConfig gridNC
    let ckeNC ← (match jlookup fields "chunk_key_encoding".data with
      | some kj => parseNameConfig kj
      | none => .error "missing chunk_key_encoding".data)
    let cke ← chunkKeyEncodingOfNameConfig ckeNC
    let fv ← reqField fields "fill_value".data
    let codecs ← parseCodecsField fields
    let st ← parseTransformersField fields
    let dims ← parseDimsField fields
    let fill ← FillValue.fromDataTypeAndJson dt fv
    .ok ⟨zf, nt, attrs, ⟨shape, dt, chunk_shape, cke, fill, codecs, st, dims⟩⟩
  | _ => .error "expected a JSON object".data

/-- serde deserialization of `GroupMetadata` (src/zarr.rs): `zarr_format` as
    u8, `node_type` as an arbitrary string, optional attributes.  Neither the
    node_type string nor the zarr_format value is validated. -/
def parseGroupMetadata (j : Json) : Except JErr GroupMetadata := do
  match j with
  | .obj fields =>
    let zf ← parseU8Field fields "zarr_format".data
    let nt ← parseStrField fields "node_type".data
    let attrs ← parseAttrsField fields
    .ok ⟨zf, nt, attrs⟩
  | _ => .error "expected a JSON object".data

def renderAttrs : Option Json → Json
  | none => .null
  | some a => a

def renderDim : Option Str → Json
  | none => .null
  | some s => .str s

def renderDims : Option (List (Option Str)) → Json
  | none => .null
  | some ds => .arr (ds.map renderDim)

def renderTransformers : Option (List StorageTransformer) → Json
  | none => .null
  | some ts => .arr (ts.map renderTransformer)

/-- serde serialization of `ArrayMetadata` (`ArrayMetadata::to_bytes`,
    src/zarr.rs), including the name/configuration envelopes of `chunk_grid`
    and `chunk_key_encoding`. -/
def renderArrayMetadata (m : ArrayMetadata) : Json :=
  .obj [("zarr_format".data, .num (m.zarr_format : Int)),
    ("node_type".data, .str m.node_type),
    ("attributes".data, renderAttrs m.attributes),
    ("shape".data, .arr (m.zarr_metadata.shape.map (fun (v : Nat) => Json.num (v : Int)))),
    ("data_type".data, m.zarr_metadata.data_type.render),
    ("chunk_grid".data,
      renderNameConfig (nameConfigOfChunkShape m.zarr_metadata.chunk_shape)),
    ("chunk_key_encoding".data,
      renderNameConfig
        (nameConfigOfChunkKeyEncoding m.zarr_metadata.chunk_key_encoding)),
    ("fill_value".data, m.zarr_metadata.fill_value.toJson),
    ("codecs".data, .arr (m.zarr_metadata.codecs.map renderCodec)),
    ("storage_transformers".data,
      renderTransformers m.zarr_metadata.storage_transformers),
    ("dimension_names".data, renderDims m.zarr_metadata.dimension_names)]

/-- serde serialization of `GroupMetadata` (`GroupMetadata::to_bytes`). -/
def renderGroupMetadata (g : GroupMetadata) : Json :=
  .obj [("zarr_format".data, .num (g.zarr_format : Int)),
    ("node_type".data, .str g.node_type),
    ("attributes".data, renderAttrs g.attributes)]

/-! ### Claim C5: array metadata round trip -/

theorem except_bind_ok {ε α β : Type} (a : α) (f : α → Except ε β) :
    (Except.ok a >>= f : Except ε β) = f a := rfl

theorem asU64_num (n : Int) :
    (Json.num n).asU64 =
      if 0 ≤ n ∧ n < 2 ^ 64 then some n.toNat else none := rfl

theorem jsonNum_asU64 (x : Nat) (h : x < 2 ^ 64) :
    (Json.num ((x : Nat) : Int)).asU64 = some x := by
  rw [asU64_num]
  rw [if_pos ⟨Int.natCast_nonneg x, by exact_mod_cast h⟩]
  simp

theorem traverseU64_cons (v : Json) (rest : List Json) :
    traverseU64 (v :: rest) =
      match v.asU64, traverseU64 rest with
      | some u, some us => some (u :: us)
      | _, _ => none := rfl

theorem traverseNonZeroU64_cons (v : Json) (rest : List Json) :
    traverseNonZeroU64 (v :: rest) =
      match v.asU64, traverseNonZeroU64 rest with
      | some u, some us => if u ≠ 0 then some (u :: us) else none
      | _, _ => none := rfl

theorem traverseU64_map (xs : List Nat) (h : ∀ x ∈ xs, x < 2 ^ 64) :
    traverseU64 (xs.map (fun (v : Nat) => Json.num (v : Int))) = some xs := by
  induction xs with
  | nil => rfl
  | cons x rest ih =>
    rw [List.map_cons, traverseU64_cons,
      jsonNum_asU64 x (h x (List.mem_cons_self x rest)),
      ih (fun y hy => h y (List.mem_cons_of_mem x hy))]

theorem traverseNonZeroU64_map (xs : List Nat)
    (h : ∀ x ∈ xs, 0 < x ∧ x < 2 ^ 64) :
    traverseNonZeroU64 (xs.map (fun (v : Nat) => Json.num (v : Int))) = some xs := by
  induction xs with
  | nil => rfl
  | cons x rest ih =>
    obtain ⟨hx0, hxb⟩ := h x (List.mem_cons_self x rest)
    rw [List.map_cons, traverseNonZeroU64_cons, jsonNum_asU64 x hxb,
      ih (fun y hy => h y (List.mem_cons_of_mem x hy))]
    show (if x ≠ 0 then some (x :: rest) else none) = some (x :: rest)
    rw [if_pos (by omega)]

theorem parseList_cons {α : Type} (g : Json → Except JErr α) (j : Json)
    (rest : List Json) :
    parseList g (j :: rest) =
      match g j, parseList g rest with
      | .ok a, .ok as => .ok (a :: as)
      | .error e, _ => .error e
      | _, .error e => .error e := rfl

theorem parseList_roundtrip {α : Type} (f : α → Json) (g : Json → Except JErr α)
    (l : List α) (h : ∀ b ∈ l, g (f b) = .ok b) :
    parseList g (l.map f) = .ok l := by
  induction l with
  | nil => rfl
  | cons a rest ih =>
    rw [List.map_cons, parseList_cons, h a (List.mem_cons_self a rest),
      ih (fun b hb => h b (List.mem_cons_of_mem a hb))]

theorem fillValue_roundtrip (fv : FillValue) (dt : DataType)
    (h : fv.matchesType dt) :
    FillValue.fromDataTypeAndJson dt fv.toJson = .ok fv := by
  cases fv with
  | int32 v =>
    cases dt with
    | int32 =>
      obtain ⟨h1, h2⟩ := (h : -(2 ^ 31) ≤ v ∧ v < 2 ^ 31)
      show (if -(2 ^ 31) ≤ v ∧ v < 2 ^ 31 then Except.ok (FillValue.int32 v)
        else Except.error "fill_value out of range".data)
          = Except.ok (FillValue.int32 v)
      rw [if_pos ⟨h1, h2⟩]
    | int64 => exact (h : False).elim
    | uint8 => exact (h : False).elim
    | bool_ => exact (h : False).elim
  | int64 v =>
    cases dt with
    | int32 => exact (h : False).elim
    | int64 =>
      obtain ⟨h1, h2⟩ := (h : -(2 ^ 63) ≤ v ∧ v < 2 ^ 63)
      show (if -(2 ^ 63) ≤ v ∧ v < 2 ^ 63 then Except.ok (FillValue.int64 v)
        else Except.error "fill_value out of range".data)
          = Except.ok (FillValue.int64 v)
      rw [if_pos ⟨h1, h2⟩]
    | uint8 => exact (h : False).elim
    | bool_ => exact (h : False).elim
  | uint8 v =>
    cases dt with
    | int32 => exact (h : False).elim
    | int64 => exact (h : False).elim
    | uint8 =>
      have hb : v < 256 := h
      show (if 0 ≤ (v : Int) ∧ (v : Int) < 256
        then Except.ok (FillValue.uint8 ((v : Int)).toNat)
        else Except.error "fill_value out of range".data)
          = Except.ok (FillValue.uint8 v)
      rw [if_pos ⟨Int.natCast_nonneg v, by exact_mod_cast hb⟩]
      simp
    | bool_ => exact (h : False).elim
  | boolean b =>
    cases dt with
    | int32 => exact (h : False).elim
    | int64 => exact (h : False).elim
    | uint8 => exact (h : False).elim
    | bool_ => rfl

theorem chunkShape_roundtrip (cs : List Nat)
    (h : ∀ x ∈ cs, 0 < x ∧ x < 2 ^ 64) :
    chunkShapeOfNameConfig (nameConfigOfChunkShape cs) = .ok cs := by
  have he : chunkShapeOfNameConfig (nameConfigOfChunkShape cs)
      = match traverseNonZeroU64 (cs.map (fun (v : Nat) => Json.num (v : Int))) with
        | some shape => .ok shape
        | none => .error "cannot parse ChunkShape".data := rfl
  rw [he, traverseNonZeroU64_map cs h]

theorem chunkKeyEncoding_roundtrip (e : ChunkKeyEncoding) :
    chunkKeyEncodingOfNameConfig (nameConfigOfChunkKeyEncoding e) = .ok e := by
  cases e
  rfl

/-- Validity of an array metadata record: u64-representable shape, nonzero
    u64 chunk shape (`NonZeroU64`), and a fill value valid for the data type
    (spec section 3 invariants). -/
def ZarrArrayMetadata.wf (m : ZarrArrayMetadata) : Prop :=
  (∀ x ∈ m.shape, x < 2 ^ 64) ∧ (∀ x ∈ m.chunk_shape, 0 < x ∧ x < 2 ^ 64) ∧
    m.fill_value.matchesType m.data_type

/-- User attributes are a free-form JSON object when present. -/
def wfAttrs : Option Json → Prop
  | none => True
  | some j => ∃ fs, j = Json.obj fs

theorem dataType_roundtrip (dt : DataType) :
    DataType.parse (DataType.render dt) = .ok dt := by
  cases dt <;> rfl

theorem nameConfig_roundtrip (nc : NameConfigSerializer) :
    parseNameConfig (renderNameConfig nc) = .ok nc := rfl

/-- C5: for every valid array metadata record (fill value valid for the data
    type, chunk shape entries nonzero u64, shape entries u64, object-shaped
    attributes), serializing to the Zarr-v3 wire JSON — including the
    name/configuration envelopes of `chunk_grid` and `chunk_key_encoding` —
    and parsing back yields the record again.  Object fields are looked up by
    name, so the result is independent of JSON key order. -/
theorem c5_array_metadata_roundtrip (attrs : Option Json)
    (zm : ZarrArrayMetadata) (h : zm.wf) (ha : wfAttrs attrs) :
    parseArrayMetadata (renderArrayMetadata (ArrayMetadata.new attrs zm))
      = .ok (ArrayMetadata.new attrs zm) := by
  obtain ⟨shape, dt, cshape, cke, fv, codecs, st, dims⟩ := zm
  obtain ⟨hsh, hch, hfv⟩ := h
  have hcodecs := parseList_roundtrip renderCodec parseCodec codecs
    (fun b _ => rfl)
  have hdims : ∀ ds : List (Option Str),
      parseList parseDim (ds.map renderDim) = .ok ds :=
    fun ds => parseList_roundtrip renderDim parseDim ds
      (fun b _ => by cases b <;> rfl)
  have htr : ∀ ts : List StorageTransformer,
      parseList parseTransformer (ts.map renderTransformer) = .ok ts :=
    fun ts => parseList_roundtrip _ parseTransformer ts (fun b _ => rfl)
  have hshm := traverseU64_map shape hsh
  cases attrs with
  | none =>
    cases st <;> cases dims <;>
      simp +decide [parseArrayMetadata, renderArrayMetadata, ArrayMetadata.new,
        renderAttrs, renderTransformers, renderDims,
        parseU8Field, parseStrField, parseAttrsField, parseShapeField,
        parseCodecsField, parseTransformersField, parseDimsField, reqField,
        jlookup_cons, except_bind_ok,
        hshm, chunkShape_roundtrip cshape hch,
        fillValue_roundtrip fv dt hfv, dataType_roundtrip dt,
        chunkKeyEncoding_roundtrip cke, nameConfig_roundtrip, hcodecs, hdims,
        htr]
  | some a =>
    obtain ⟨fs, rfl⟩ := ha
    cases st <;> cases dims <;>
      simp +decide [parseArrayMetadata, renderArrayMetadata, ArrayMetadata.new,
        renderAttrs, renderTransformers, renderDims,
        parseU8Field, parseStrField, parseAttrsField, parseShapeField,
        parseCodecsField, parseTransformersField, parseDimsField, reqField,
        jlookup_cons, except_bind_ok,
        hshm, chunkShape_roundtrip cshape hch,
        fillValue_roundtrip fv dt hfv, dataType_roundtrip dt,
        chunkKeyEncoding_roundtrip cke, nameConfig_roundtrip, hcodecs, hdims,
        htr]

/-- The array metadata of the repository's `test_metadata_set_and_get` test,
    as a structured record. -/
def c5zm : ZarrArrayMetadata :=
  ⟨[2, 2, 2], .int32, [1, 1, 1], .Slash, .int32 0,
    [⟨"mycodec".data, .obj [("foo".data, .num 42)]⟩],
    some [⟨"mytransformer".data, .obj [("bar".data, .num 43)]⟩],
    some [some "x".data, some "y".data, some "t".data]⟩

def c5attrs : Option Json := some (.obj [("foo".data, .num 42)])

/-- C5 witness: the round trip instantiated at the concrete array metadata of
    the repository's own test payload. -/
theorem c5_array_metadata_roundtrip_witness :
    c5zm.wf ∧
      parseArrayMetadata (renderArrayMetadata (ArrayMetadata.new c5attrs c5zm))
        = .ok (ArrayMetadata.new c5attrs c5zm) := by
  have hwf : c5zm.wf := ⟨by decide, by decide,
    by show -(2 ^ 31 : Int) ≤ 0 ∧ (0 : Int) < 2 ^ 31 ; decide⟩
  exact ⟨hwf, c5_array_metadata_roundtrip c5attrs c5zm hwf ⟨_, rfl⟩⟩

/-! ### The dataset engine model and the store facade -/

/-- `NodeData` (crate::format::structure): group or array with its metadata;
    the manifest reference, irrelevant to the adapter, is omitted.  Modelled
    from the spec (section 3). -/
inductive NodeData where
  | group
  | array (zarr_metadata : ZarrArrayMetadata)

structure DSNode where
  path : Str
  data : NodeData
  attrs : Option Json

/-- Modelled from the spec: the dataset-engine state visible through the
    adapter — the node hierarchy with inline user attributes, the chunk
    payloads keyed by (path, coords), and a set of paths at which the
    engine's node lookup fails with a lower-level error (such as I/O) rather
    than plain absence; spec section 7 allows engine failures of either
    kind.  Values are modelled as parsed JSON documents. -/
structure DSState where
  nodes : List DSNode
  chunks : List ((Str × List Nat) × Json)
  ioFail : List Str

def findNode (st : DSState) (p : Str) : Option DSNode :=
  st.nodes.find? (fun n => n.path == p)

/-- Modelled from the spec: `Dataset::get_node` — the node at the path, or an
    engine error (absence, or an injected lower-level failure). -/
def dsGetNode (st : DSState) (p : Str) : Except DSErr DSNode :=
  if p ∈ st.ioFail then .error .io
  else
    match findNode st p with
    | some n => .ok n
    | none => .error (.nodeNotFound p)

/-- Modelled from the spec: `Dataset::get_chunk` returns the chunk payload if
    a chunk reference is present. -/
def dsGetChunk (st : DSState) (p : Str) (coords : List Nat) : Option Json :=
  (st.chunks.find? (fun e => e.1 == (p, coords))).map (fun e => e.2)

/-- Modelled from the spec: `Dataset::set_chunk` stores the payload. -/
def dsSetChunk (st : DSState) (p : Str) (coords : List Nat) (v : Json) : DSState :=
  { st with chunks :=
      ((p, coords), v) :: st.chunks.filter (fun e => !(e.1 == (p, coords))) }

/-- Modelled from the spec: `Dataset::set_chunk_ref(path, coords, None)` —
    clearing a chunk reference always succeeds, present or not. -/
def dsSetChunkRefNone (st : DSState) (p : Str) (coords : List Nat) : DSState :=
  { st with chunks := st.chunks.filter (fun e => !(e.1 == (p, coords))) }

/-- Modelled from the spec: `Dataset::add_group` fails on an occupied path. -/
def dsAddGroup (st : DSState) (p : Str) : Except DSErr DSState :=
  match findNode st p with
  | some _ => .error (.conflict p)
  | none => .ok { st with nodes := st.nodes ++ [⟨p, .group, none⟩] }

/-- Modelled from the spec: `Dataset::add_array` fails on an occupied path. -/
def dsAddArray (st : DSState) (p : Str) (zm : ZarrArrayMetadata) :
    Except DSErr DSState :=
  match findNode st p with
  | some _ => .error (.conflict p)
  | none => .ok { st with nodes := st.nodes ++ [⟨p, .array zm, none⟩] }

/-- Modelled from the spec: `Dataset::update_array` requires an array node at
    the path. -/
def dsUpdateArray (st : DSState) (p : Str) (zm : ZarrArrayMetadata) :
    Except DSErr DSState :=
  match findNode st p with
  | some n =>
    match n.data with
    | .array _ =>
      .ok { st with nodes := (st.nodes.map
        (fun m => if m.path == p then ⟨m.path, .array zm, m.attrs⟩ else m)) }
    | .group => .error (.conflict p)
  | none => .error (.nodeNotFound p)

/-- Modelled from the spec: `Dataset::set_user_attributes` requires a node at
    the path. -/
def dsSetUserAttributes (st : DSState) (p : Str) (attrs : Option Json) :
    Except DSErr DSState :=
  match findNode st p with
  | some _ =>
    .ok { st with nodes := (st.nodes.map
      (fun m => if m.path == p then ⟨m.path, m.data, attrs⟩ else m)) }
  | none => .error (.nodeNotFound p)

/-- Modelled from the spec: `Dataset::get_array` succeeds only on arrays. -/
def dsGetArray (st : DSState) (p : Str) : Except DSErr ZarrArrayMetadata :=
  match findNode st p with
  | some n =>
    match n.data with
    | .array zm => .ok zm
    | .group => .error (.conflict p)
  | none => .error (.nodeNotFound p)

/-- Modelled from the spec: `Dataset::get_group` succeeds only on groups. -/
def dsGetGroup (st : DSState) (p : Str) : Except DSErr Unit :=
  match findNode st p with
  | some n =>
    match n.data with
    | .group => .ok ()
    | .array _ => .error (.conflict p)
  | none => .error (.nodeNotFound p)

/-- Modelled from the spec: `Dataset::delete_array` removes the node and its
    chunks. -/
def dsDeleteArray (st : DSState) (p : Str) : DSState :=
  { nodes := (st.nodes.filter (fun n => !(n.path == p))),
    chunks := (st.chunks.filter (fun e => !(e.1.1 == p))),
    ioFail := st.ioFail }

/-- Modelled from the spec: `Dataset::delete_group` removes the node. -/
def dsDeleteGroup (st : DSState) (p : Str) : DSState :=
  { st with nodes := st.nodes.filter (fun n => !(n.path == p)) }

/-- `Store::get_chunk` (src/zarr.rs): a missing chunk becomes
    `ChunkNotFound` carrying the key, path and coordinates. -/
def Store.getChunk (st : DSState) (key : Str) (path : Str)
    (coords : List Nat) : Except StoreError Json :=
  match dsGetChunk st path coords with
  | some v => .ok v
  | none => .error (.NotFound (.ChunkNotFound key path coords))

/-- `Store::get_metadata` (src/zarr.rs): every failure of the engine's node
    lookup is mapped to `NodeNotFound` (`map_err(|_| ...)`); the node's
    discriminant selects the group or array wire form.  The unimplemented
    out-of-line user-attributes case is outside this model (attributes are
    inline). -/
def Store.getMetadata (st : DSState) (path : Str) : Except StoreError Json :=
  match dsGetNode st path with
  | .error _ => .error (.NotFound (.NodeNotFound path))
  | .ok node =>
    match node.data with
    | .group => .ok (renderGroupMetadata (GroupMetadata.new node.attrs))
    | .array zm => .ok (renderArrayMetadata (ArrayMetadata.new node.attrs zm))

/-- `Store::get` (src/zarr.rs): dispatch on the parsed key. -/
def Store.get (st : DSState) (key : Str) : Except StoreError Json :=
  match Key.parse key with
  | .error e => .error e
  | .ok (.Metadata node_path) => Store.getMetadata st node_path
  | .ok (.Chunk node_path coords) => Store.getChunk st key node_path coords

/-- `Store::exists` (src/zarr.rs): `NotFound` maps to `false`; other errors
    propagate. -/
def Store.exists' (st : DSState) (key : Str) : Except StoreError Bool :=
  match Store.get st key with
  | .ok _ => .ok true
  | .error (.NotFound _) => .ok false
  | .error e => .error e

/-- `Store::set_array_meta` (src/zarr.rs): update an existing array (user
    attributes then metadata) or add the array and then its attributes.
    Engine errors surface as `CannotUpdate`; the state is threaded so that an
    error reports the dataset state reached so far. -/
def Store.setArrayMeta (st : DSState) (path : Str) (am : ArrayMetadata) :
    Except StoreError Unit × DSState :=
  if (dsGetArray st path).isOk then
    match dsSetUserAttributes st path am.attributes with
    | .error e => (.error (.CannotUpdate e), st)
    | .ok st1 =>
      match dsUpdateArray st1 path am.zarr_metadata with
      | .error e => (.error (.CannotUpdate e), st1)
      | .ok st2 => (.ok (), st2)
  else
    match dsAddArray st path am.zarr_metadata with
    | .error e => (.error (.CannotUpdate e), st)
    | .ok st1 =>
      match dsSetUserAttributes st1 path am.attributes with
      | .error e => (.error (.CannotUpdate e), st1)
      | .ok st2 => (.ok (), st2)

/-- `Store::set_group_meta` (src/zarr.rs). -/
def Store.setGroupMeta (st : DSState) (path : Str) (gm : GroupMetadata) :
    Except StoreError Unit × DSState :=
  if (dsGetGroup st path).isOk then
    match dsSetUserAttributes st path gm.attributes with
    | .error e => (.error (.CannotUpdate e), st)
    | .ok st1 => (.ok (), st1)
  else
    match dsAddGroup st path with
    | .error e => (.error (.CannotUpdate e), st)
    | .ok st1 =>
      match dsSetUserAttributes st1 path gm.attributes with
      | .error e => (.error (.CannotUpdate e), st1)
      | .ok st2 => (.ok (), st2)

/-- `Store::set` (src/zarr.rs): metadata payloads are sniffed as array
    metadata first and group metadata second; chunk payloads go to the
    engine.  Returns the result together with the dataset state. -/
def Store.set (st : DSState) (key : Str) (value : Json) :
    Except StoreError Unit × DSState :=
  match Key.parse key with
  | .error e => (.error e, st)
  | .ok (.Metadata node_path) =>
    match parseArrayMetadata value with
    | .ok array_meta => Store.setArrayMeta st node_path array_meta
    | .error _ =>
      match parseGroupMetadata value with
      | .ok group_meta => Store.setGroupMeta st node_path group_meta
      | .error err => (.error (.BadMetadata err), st)
  | .ok (.Chunk node_path coords) => (.ok (), dsSetChunk st node_path coords value)

/-- `Store::delete` (src/zarr.rs): for a metadata key the node is looked up
    first (any failure becomes `NodeNotFound`) and its discriminant selects
    array or group deletion; for a chunk key the chunk reference is set to
    none, unconditionally. -/
def Store.delete (st : DSState) (key : Str) :
    Except StoreError Unit × DSState :=
  match Key.parse key with
  | .error e => (.error e, st)
  | .ok (.Metadata node_path) =>
    match dsGetNode st node_path with
    | .error _ => (.error (.NotFound (.NodeNotFound node_path)), st)
    | .ok node =>
      match node.data with
      | .array _ => (.ok (), dsDeleteArray st node_path)
      | .group => (.ok (), dsDeleteGroup st node_path)
  | .ok (.Chunk node_path coords) => (.ok (), dsSetChunkRefNone st node_path coords)

/-- `Store::list_metadata_prefix` (src/zarr.rs): requires a trailing slash,
    strips it, and emits every node's metadata key whose string form starts
    with the stripped prefix. -/
def listMetaPre (st : DSState) (p : Str) : Except StoreError (List Str) :=
  match stripSuffix p ['/'] with
  | some p0 =>
    .ok (st.nodes.filterMap (fun n =>
      (Key.toString (.Metadata n.path)).bind
        (fun k => if p0.isPrefixOf k then some k else none)))
  | none => .error (.BadKeyPre p)

/-- `Store::list_chunks_prefix` (src/zarr.rs). -/
def listChunksPre (st : DSState) (p : Str) : Except StoreError (List Str) :=
  match stripSuffix p ['/'] with
  | some p0 =>
    .ok (st.chunks.filterMap (fun e =>
      (Key.toString (.Chunk e.1.1 e.1.2)).bind
        (fun k => if p0.isPrefixOf k then some k else none)))
  | none => .error (.BadKeyPre p)

/-- `Store::list_prefix` (src/zarr.rs): metadata keys chained before chunk
    keys. -/
def Store.listUnder (st : DSState) (p : Str) : Except StoreError (List Str) :=
  match listMetaPre st p with
  | .error e => .error e
  | .ok meta =>
    match listChunksPre st p with
    | .error e => .error e
    | .ok chunks => .ok (meta ++ chunks)

/-- The byte slice `&s[idx..]` of each listed key, as performed by
    `Store::list_dir`: `none` models the panic when the index exceeds the
    key's length (character granularity; the keys involved are ASCII). -/
def sliceAll (idx : Nat) : List Str → Option (List Str)
  | [] => some []
  | s :: rest =>
    if idx ≤ s.length then (sliceAll idx rest).map (fun rs => s.drop idx :: rs)
    else none

/-- Rust `str::split_once('/')`. -/
def splitOnceSlash : Str → Option (Str × Str)
  | [] => none
  | c :: r =>
    if c = '/' then some ([], r)
    else (splitOnceSlash r).map (fun q => (c :: q.1, q.2))

def firstSeg (rem : Str) : Str :=
  match splitOnceSlash rem with
  | some q => q.1
  | none => rem

/-- `Store::list_dir` (src/zarr.rs): slice each listed key at the prefix's
    byte length (0 for the root prefix "/"), keep the first segment of the
    remainder, and collect into a set (`HashSet`, modelled as `dedup`; its
    iteration order is unspecified).  The result is `none` when the slicing
    panics. -/
def Store.listDir (st : DSState) (p : Str) :
    Option (Except StoreError (List Str)) :=
  let idx := if p = ['/'] then 0 else p.length
  match Store.listUnder st p with
  | .error e => some (.error e)
  | .ok keys =>
    match sliceAll idx keys with
    | none => none
    | some rems => some (.ok ((rems.map firstSeg).dedup))

/-! ### Claim C4 -/

/-- C4: on a metadata key, `Store::set` tries the array-metadata parse first;
    only if it fails is the group-metadata parse attempted; and when both
    fail, the result is `BadMetadata` wrapping the group-parse error with the
    dataset state unchanged. -/
theorem c4_set_sniffs_array_first (st : DSState) (key p : Str) (j : Json)
    (h : Key.parse key = .ok (.Metadata p)) :
    (∀ a, parseArrayMetadata j = .ok a →
      Store.set st key j = Store.setArrayMeta st p a) ∧
    (∀ e g, parseArrayMetadata j = .error e → parseGroupMetadata j = .ok g →
      Store.set st key j = Store.setGroupMeta st p g) ∧
    (∀ e e2, parseArrayMetadata j = .error e →
      parseGroupMetadata j = .error e2 →
      Store.set st key j = (.error (.BadMetadata e2), st)) := by
  refine ⟨?_, ?_, ?_⟩
  · intro a ha
    simp [Store.set, h, ha]
  · intro e g he hg
    simp [Store.set, h, he, hg]
  · intro e e2 he hg
    simp [Store.set, h, he, hg]

/-- C4 witness: the dispatch instantiated at the root metadata key and a
    payload (a bare JSON string) that fails both parses. -/
theorem c4_set_sniffs_array_first_witness :
    Key.parse "zarr.json".data = .ok (.Metadata ['/']) ∧
      ((∀ a, parseArrayMetadata (Json.str "x".data) = .ok a →
        Store.set ⟨[], [], []⟩ "zarr.json".data (Json.str "x".data)
          = Store.setArrayMeta ⟨[], [], []⟩ ['/'] a) ∧
      (∀ e g, parseArrayMetadata (Json.str "x".data) = .error e →
        parseGroupMetadata (Json.str "x".data) = .ok g →
        Store.set ⟨[], [], []⟩ "zarr.json".data (Json.str "x".data)
          = Store.setGroupMeta ⟨[], [], []⟩ ['/'] g) ∧
      (∀ e e2, parseArrayMetadata (Json.str "x".data) = .error e →
        parseGroupMetadata (Json.str "x".data) = .error e2 →
        Store.set ⟨[], [], []⟩ "zarr.json".data (Json.str "x".data)
          = (.error (.BadMetadata e2), ⟨[], [], []⟩))) :=
  ⟨by decide, c4_set_sniffs_array_first ⟨[], [], []⟩ _ ['/'] _ (by decide)⟩

/-! ### Claim C6 -/

theorem dsGetChunk_after_refNone (st : DSState) (p : Str) (cs : List Nat) :
    dsGetChunk (dsSetChunkRefNone st p cs) p cs = none := by
  have hf : (st.chunks.filter (fun e => !(e.1 == (p, cs)))).find?
      (fun e => e.1 == (p, cs)) = none := by
    rw [List.find?_eq_none]
    intro x hx
    have h2 := (List.mem_filter.mp hx).2
    simpa using h2
  simp [dsGetChunk, dsSetChunkRefNone, hf]

/-- C6: deleting a chunk key always succeeds (twice in a row included, and
    for chunks that never existed, since the statement holds for every
    state); a subsequent get of that chunk key fails with `ChunkNotFound`
    carrying the key, node path and coordinates; deleting a metadata key
    whose node lookup fails yields `NotFound(NodeNotFound)` and leaves the
    state unchanged. -/
theorem c6_delete_semantics (st : DSState) (k k' p p' : Str) (cs : List Nat)
    (h1 : Key.parse k = .ok (.Chunk p cs))
    (h2 : Key.parse k' = .ok (.Metadata p'))
    (h3 : (dsGetNode st p').isOk = false) :
    (Store.delete st k).1 = .ok () ∧
      (Store.delete (Store.delete st k).2 k).1 = .ok () ∧
      Store.get (Store.delete st k).2 k
        = .error (.NotFound (.ChunkNotFound k p cs)) ∧
      Store.delete st k' = (.error (.NotFound (.NodeNotFound p')), st) := by
  refine ⟨?_, ?_, ?_, ?_⟩
  · simp [Store.delete, h1]
  · simp [Store.delete, h1]
  · simp [Store.delete, Store.get, h1, Store.getChunk,
      dsGetChunk_after_refNone]
  · simp only [Store.delete, h2]
    cases hg : dsGetNode st p' with
    | ok n =>
      rw [hg] at h3
      simp [Except.isOk, Except.toBool] at h3
    | error e => simp

/-- C6 witness: a store holding one chunk of the array at `/a`; the chunk key
    `a/c/0/1/0` and the metadata key `b/zarr.json` whose node is absent. -/
theorem c6_delete_semantics_witness :
    Key.parse "a/c/0/1/0".data = .ok (.Chunk "/a".data [0, 1, 0]) ∧
      Key.parse "b/zarr.json".data = .ok (.Metadata "/b".data) ∧
      (dsGetNode ⟨[], [(("/a".data, [0, 1, 0]), Json.num 5)], []⟩ "/b".data).isOk
        = false ∧
      ((Store.delete ⟨[], [(("/a".data, [0, 1, 0]), Json.num 5)], []⟩
          "a/c/0/1/0".data).1 = .ok () ∧
        (Store.delete (Store.delete
            ⟨[], [(("/a".data, [0, 1, 0]), Json.num 5)], []⟩
            "a/c/0/1/0".data).2 "a/c/0/1/0".data).1 = .ok () ∧
        Store.get (Store.delete
            ⟨[], [(("/a".data, [0, 1, 0]), Json.num 5)], []⟩
            "a/c/0/1/0".data).2 "a/c/0/1/0".data
          = .error (.NotFound (.ChunkNotFound "a/c/0/1/0".data "/a".data
              [0, 1, 0])) ∧
        Store.delete ⟨[], [(("/a".data, [0, 1, 0]), Json.num 5)], []⟩
            "b/zarr.json".data
          = (.error (.NotFound (.NodeNotFound "/b".data)),
              ⟨[], [(("/a".data, [0, 1, 0]), Json.num 5)], []⟩)) :=
  ⟨by decide, by decide, rfl,
    c6_delete_semantics _ _ _ _ _ _ (by decide) (by decide) rfl⟩

/-! ### Claim C8 -/

/-- C8: for a metadata key, `Store::get` maps every failure of the engine's
    node lookup — whatever its cause, not only absence — to
    `NotFound(NodeNotFound)`; consequently `exists` answers `Ok(false)`
    whenever the node lookup fails for any reason. -/
theorem c8_node_lookup_failures_become_not_found (st : DSState) (key p : Str)
    (e : DSErr) (h1 : Key.parse key = .ok (.Metadata p))
    (h2 : dsGetNode st p = .error e) :
    Store.get st key = .error (.NotFound (.NodeNotFound p)) ∧
      Store.exists' st key = .ok false := by
  have hg : Store.get st key = .error (.NotFound (.NodeNotFound p)) := by
    simp [Store.get, h1, Store.getMetadata, h2]
  refine ⟨hg, ?_⟩
  simp [Store.exists', hg]

/-- C8 witness: a store where the node lookup at `/a` fails with an I/O-class
    engine error, not absence. -/
theorem c8_node_lookup_failures_witness :
    Key.parse "a/zarr.json".data = .ok (.Metadata "/a".data) ∧
      dsGetNode ⟨[⟨"/a".data, .group, none⟩], [], ["/a".data]⟩ "/a".data
        = .error .io ∧
      (Store.get ⟨[⟨"/a".data, .group, none⟩], [], ["/a".data]⟩
          "a/zarr.json".data
        = .error (.NotFound (.NodeNotFound "/a".data)) ∧
      Store.exists' ⟨[⟨"/a".data, .group, none⟩], [], ["/a".data]⟩
          "a/zarr.json".data = .ok false) :=
  ⟨by decide, rfl,
    c8_node_lookup_failures_become_not_found _ _ _ .io (by decide) rfl⟩

/-! ### Claim C7 -/

/-- All metadata keys of the store, in node-iteration order. -/
def allMetaKeys (st : DSState) : List Str :=
  st.nodes.filterMap (fun n => Key.toString (.Metadata n.path))

/-- All chunk keys of the store, in chunk-iteration order. -/
def allChunkKeys (st : DSState) : List Str :=
  st.chunks.filterMap (fun e => Key.toString (.Chunk e.1.1 e.1.2))

theorem filterMap_bind_filter {α : Type} (f : α → Option Str) (q : Str → Bool)
    (l : List α) :
    l.filterMap (fun a => (f a).bind (fun k => if q k then some k else none))
      = (l.filterMap f).filter q := by
  induction l with
  | nil => rfl
  | cons a as ih =>
    simp only [List.filterMap_cons]
    cases hf : f a with
    | none => simpa using ih
    | some k =>
      by_cases hq : q k
      · simp [hq, List.filter_cons, ih]
      · simp [hq, List.filter_cons, ih]

/-- C7: for a prefix ending in '/', `list_prefix` returns exactly the
    metadata keys followed by the chunk keys whose STRING form starts with
    the prefix stripped of its trailing slash (string-prefix matching, not
    path-component matching); for any other prefix it fails with
    `BadKeyPrefix`.  The returned list — hence its multiset — equals the
    filter of all metadata and chunk keys of the store. -/
theorem c7_list_prefix_filters_by_string (st : DSState) (p : Str) :
    Store.listUnder st p =
      match stripSuffix p ['/'] with
      | some p0 =>
        .ok ((allMetaKeys st ++ allChunkKeys st).filter
          (fun k => p0.isPrefixOf k))
      | none => .error (.BadKeyPre p) := by
  cases hs : stripSuffix p ['/'] with
  | none => simp [Store.listUnder, listMetaPre, listChunksPre, hs]
  | some p0 =>
    simp only [Store.listUnder, listMetaPre, listChunksPre, hs, allMetaKeys,
      allChunkKeys, List.filter_append]
    rw [filterMap_bind_filter, filterMap_bind_filter]

/-! ### Claim C9 -/

/-- A payload declaring `node_type: "array"` whose chunk_grid name is
    not "regular": the array-metadata parse rejects it, the group-metadata
    parse accepts it. -/
def c9payload1 : Json :=
  .obj [("zarr_format".data, .num 3), ("node_type".data, .str "array".data),
    ("shape".data, .arr [.num 2]), ("data_type".data, .str "int32".data),
    ("chunk_grid".data, .obj [("name".data, .str "irregular".data),
      ("configuration".data, .obj [("chunk_shape".data, .arr [.num 1])])]),
    ("chunk_key_encoding".data, .obj [("name".data, .str "default".data),
      ("configuration".data, .obj [("separator".data, .str "/".data)])]),
    ("fill_value".data, .num 0), ("codecs".data, .arr [])]

/-- A payload whose node_type is neither "array" nor "group" and whose
    zarr_format is not 3. -/
def c9payload2 : Json :=
  .obj [("zarr_format".data, .num 7), ("node_type".data, .str "banana".data)]

/-- C9: the group-metadata fallback validates neither the node_type string
    nor the zarr_format value: a payload with node_type "array" but invalid
    array fields, and a payload with node_type "banana" and zarr_format 7,
    are both accepted by `Store::set` and stored as group nodes. -/
theorem c9_set_fallback_stores_group :
    (parseArrayMetadata c9payload1).isOk = false ∧
      parseGroupMetadata c9payload1 = .ok ⟨3, "array".data, none⟩ ∧
      Store.set ⟨[], [], []⟩ "a/zarr.json".data c9payload1
        = (.ok (), ⟨[⟨"/a".data, .group, none⟩], [], []⟩) ∧
      (parseArrayMetadata c9payload2).isOk = false ∧
      parseGroupMetadata c9payload2 = .ok ⟨7, "banana".data, none⟩ ∧
      Store.set ⟨[], [], []⟩ "b/zarr.json".data c9payload2
        = (.ok (), ⟨[⟨"/b".data, .group, none⟩], [], []⟩) :=
  ⟨rfl, rfl, rfl, rfl, rfl, rfl⟩

/-! ### Claim C10 -/

def c10st : DSState := ⟨[⟨"/a".data, .group, none⟩], [], []⟩

/-- C10 (code bug): with a node at `/a`, the listing for the valid prefix
    `"a/zarr.json/"` contains the key `"a/zarr.json"`, which equals the
    prefix with its trailing slash stripped; `list_dir` then slices that
    11-character key at byte index 12 (`&s[idx..]` with `idx = prefix.len()`),
    which is out of bounds — the code panics instead of returning a value. -/
theorem c10_list_dir_out_of_bounds_slice :
    Store.listUnder c10st "a/zarr.json/".data = .ok ["a/zarr.json".data] ∧
      Store.listDir c10st "a/zarr.json/".data = none :=
  ⟨rfl, rfl⟩
